import Mathlib

/-!
# Verification of the Scientific-Variable knowledge-graph builder

A shallow embedding of the core of the repository
`mariutzica/Scientific-Variable-Exploration-Tools`:

* `parse_tools.py` — the `NounGroup` word-cluster extraction
  (`parse_noun_groups`, `add_word_cluster`, `decompose_noun_group`,
  `extract_type`, `set_values`, `find_sequence`);
* `knowledge_graph.py` — the `SciVarKG` class: node creation
  (`add_term_node` and its helpers), synonym merging (`update_synonyms`),
  depth-bounded expansion (`add_concept` / `create_concept_levels`),
  the category-inference pass (`graph_define_svo_category`) and the
  score-propagation pass (`graph_add_var_entity_links`).

Python dicts are modelled as insertion-ordered association lists
(`List (key × value)`), matching CPython's ordered-dict semantics:
lookup finds the first (unique) matching key, assigning to an existing key
keeps its position, assigning a fresh key appends at the end.
Python floats are modelled as `ℚ` (the constants involved — 0.83, 0.05 and
the test scores — are decimal literals and all arithmetic in the claims is
exact).  Python runtime errors (`NameError`, `KeyError`, `IndexError`,
`ValueError`) are modelled with `Except PyErr`; code paths that raise are
translated to `.error`.  External collaborators that the specification
declares out of scope (the Stanza dependency parser, the Wikipedia API,
the SVO SPARQL endpoint, the WiktiWordNet table, Python's runtime `hash`)
are supplied as a `World` of oracle functions; every call into the three
lookup services is also recorded in a call log so that "no external fetch
happens" is a provable statement.
-/

namespace SciVar

/-! ## Ordered association lists (Python `dict` model) -/

/-- First value bound to key `k` (Python `d[k]` when present, `k in d`). -/
def alookup {κ α : Type} [DecidableEq κ] : List (κ × α) → κ → Option α
  | [], _ => none
  | (k, v) :: rest, key => if k = key then some v else alookup rest key

/-- Python `d[k] = v`: replace in place if the key exists, else append. -/
def aset {κ α : Type} [DecidableEq κ] : List (κ × α) → κ → α → List (κ × α)
  | [], key, v => [(key, v)]
  | (k, w) :: rest, key, v =>
      if k = key then (k, v) :: rest else (k, w) :: aset rest key v

/-- Python `list(d.keys())` (insertion order). -/
def akeys {κ α : Type} (l : List (κ × α)) : List κ := l.map Prod.fst

/-! ## Python runtime errors -/

/-- The runtime errors that the translated code can raise.  `fuelOut` is an
embedding artifact: the recursion of `add_term_node` is bounded by an
explicit fuel parameter, and every theorem below supplies ample fuel. -/
inductive PyErr where
  | nameError | keyError | indexError | valueError | attributeError | fuelOut
  deriving DecidableEq, Repr

/-- `d[k]` on a Python dict: `KeyError` when the key is absent. -/
def pyGet {κ α : Type} [DecidableEq κ] (l : List (κ × α)) (k : κ) :
    Except PyErr α :=
  match alookup l k with
  | some v => .ok v
  | none => .error .keyError

/-- Python `max(a, b)` on numbers (the first argument when equal).
Definitionally a plain comparison, so concrete runs reduce in the kernel;
`pymax_eq_max` below identifies it with `max`. -/
def pymax (a b : ℚ) : ℚ := if b ≤ a then a else b

/-! ## String helpers

Total re-implementations of the Python string operations used by the source
(`str.lower`, `str.split(' ')`, `' '.join`, substring containment,
`str.replace`), written over `String.data` so that every concrete theorem
below can be checked by kernel reduction. -/

/-- Python `s.lower()` (ASCII suffices for this code base). -/
def strLower (s : String) : String := ⟨s.data.map Char.toLower⟩

/-- Python `s.split(sep)` for a single-character separator. -/
def splitCharAux (sep : Char) : List Char → List Char → List String
  | [], acc => [⟨acc.reverse⟩]
  | c :: rest, acc =>
      if c = sep then ⟨acc.reverse⟩ :: splitCharAux sep rest []
      else splitCharAux sep rest (c :: acc)

def strSplitChar (sep : Char) (s : String) : List String :=
  splitCharAux sep s.data []

/-- Python `s.split(' ')` (also used for `s.split()`: every string this code
splits has single-space separators). -/
def strSplitSpace (s : String) : List String := strSplitChar ' ' s

/-- Python `' '.join(l)`. -/
def strJoinSpace : List String → String
  | [] => ""
  | [s] => s
  | s :: rest => s ++ " " ++ strJoinSpace rest

/-- `pat` occurs as a contiguous run inside `l`. -/
def listInfix (pat : List Char) : List Char → Bool
  | [] => pat.isEmpty
  | c :: rest => pat.isPrefixOf (c :: rest) || listInfix pat rest

/-- Python `pat in s` (substring containment). -/
def containsSub (s pat : String) : Bool := listInfix pat.data s.data

/-- Python `s.replace(pat, r)` for nonempty `pat` (leftmost, non-overlapping).
The source only calls it as `.replace('\\s+','')`, i.e. with a literal
(non-regex) pattern that essentially never occurs. -/
def strReplaceAux (pat r : List Char) : List Char → Nat → List Char
  | l, 0 => l
  | [], _ + 1 => []
  | c :: rest, n + 1 =>
      if pat.isPrefixOf (c :: rest) then
        r ++ strReplaceAux pat r ((c :: rest).drop pat.length) n
      else
        c :: strReplaceAux pat r rest n

def strReplace (s pat r : String) : String :=
  if pat.data = [] then s
  else ⟨strReplaceAux pat.data r.data s.data s.data.length⟩

/-! ## `parse_tools.py` — tagged words and noun-group attributes -/

/-- One token of the external parser's output (`word.text`, `word.upos`,
`word.lemm` are the only fields `NounGroup.parse_noun_groups` reads). -/
structure Word where
  text : String
  upos : String
  lemm : String
  deriving DecidableEq, Repr

/-- The attribute dict built by `parse_tools` for a noun group:
`{'pos_seq': …, 'lemma_seq': …, 'type': …}` plus the optional keys
`components` / `has_type` / `has_attribute` (present iff nonempty, exactly
as in the source, which only assigns them when non-`{}`) and
`component_of` (a plain string, assigned by `add_components`). -/
inductive NGAttr where
  | mk : (pos_seq lemma_seq : List String) → (type : String) →
      (components has_type has_attribute : List (String × NGAttr)) →
      (component_of : Option String) → NGAttr

namespace NGAttr

def pos_seq : NGAttr → List String | .mk p _ _ _ _ _ _ => p
def lemma_seq : NGAttr → List String | .mk _ l _ _ _ _ _ => l
def type : NGAttr → String | .mk _ _ t _ _ _ _ => t
def components : NGAttr → List (String × NGAttr) | .mk _ _ _ c _ _ _ => c
def has_type : NGAttr → List (String × NGAttr) | .mk _ _ _ _ h _ _ => h
def has_attribute : NGAttr → List (String × NGAttr) | .mk _ _ _ _ _ a _ => a
def component_of : NGAttr → Option String | .mk _ _ _ _ _ _ c => c

/-- `attr['component_of'] = word` (the only mutation the source applies to a
parsed attribute dict). -/
def withComponentOf : NGAttr → String → NGAttr
  | .mk p l t c h a _, w => .mk p l t c h a (some w)

/-- A bare `{'pos_seq': ps, 'lemma_seq': ls, 'type': t}` dict. -/
def base (ps ls : List String) (t : String) : NGAttr := .mk ps ls t [] [] [] none

end NGAttr

/-! ### `find_sequence`, `extract_type`, `set_values`, `decompose_noun_group` -/

/-- Inner `while` of `find_sequence`: does `seq` match at the head of `lst`? -/
def seqMatches : List String → List String → Bool
  | _, [] => true
  | [], _ :: _ => false
  | x :: xs, s :: ss => x == s && seqMatches xs ss

/-- `find_sequence(lst, seq)`: all start indices of `seq` inside `lst`. -/
def findSequence (lst seq : List String) : List Nat :=
  (List.range lst.length).filter fun i => seqMatches (lst.drop i) seq

/-- `extract_type(node_name, pos_seq, lemma_seq)`: the `'type'` label of a
noun group, together with its optional head-type (`node_contain`) and
leading-adjective attributes (`node_attribute`).  Returned as
`(node_contain, node_attribute, typ)`, in source order. -/
def extractType (node_name : String) (pos_seq lemma_seq : List String) :
    List (String × NGAttr) × List (String × NGAttr) × String :=
  let typ :=
    if pos_seq.contains "ADPOSITION" then "compound"
    else if containsSub (strJoinSpace pos_seq) "NOUN ADJECTIVE" then "modnoungrp"
    else if pos_seq.contains "NOUN" && pos_seq.contains "ADJECTIVE" then "modnoun"
    else if pos_seq.contains "ADJECTIVE" then "adj"
    else if pos_seq.length > 1 then "noungrp"
    else "noun"
  -- the `while (pos_seq[i] != 'NOUN') ...` scan for the first NOUN
  if !pos_seq.contains "ADPOSITION" && pos_seq.contains "NOUN" then
    let i := pos_seq.findIdx (· == "NOUN")
    let node_type := strJoinSpace ((strSplitSpace node_name).drop i)
    let lemm := lemma_seq.drop i
    let pos := pos_seq.drop i
    let node_attr := (strSplitSpace node_name).take i
    let lemma_attr := lemma_seq.take i
    if node_type ≠ node_name then
      let node_contain :=
        [(node_type, NGAttr.base pos lemm
            (if lemm.length == 1 then "noun" else "noungrp"))]
      -- `node_attribute[attr] = {...}` over a dict collapses duplicate keys
      let node_attribute := (node_attr.zip lemma_attr).foldl
        (fun d (al : String × String) =>
          aset d al.1 (NGAttr.base ["ADJECTIVE"] [al.2] "adj")) []
      (node_contain, node_attribute, typ)
    else ([], [], typ)
  else ([], [], typ)

/-- `set_values(groups, w, ps, ls)`. -/
def setValues (groups : List (String × NGAttr)) (w : String)
    (ps ls : List String) : List (String × NGAttr) :=
  let (node_contain, node_attr, typ) := extractType w ps ls
  aset groups w (.mk ps ls typ [] node_contain node_attr none)

/-- `decompose_noun_group(ngroup, pos, lemma)`: split a compound at its
adpositions; an `ADPOSITION,NOUN,ADPOSITION` window advances past all three
tokens (the interior noun is dropped). -/
def decomposeNounGroup (ngroup : String) (pos lemm : List String) :
    List (String × NGAttr) :=
  let adp_loc := findSequence pos ["ADPOSITION"]
  let adpnadp_loc := findSequence pos ["ADPOSITION", "NOUN", "ADPOSITION"]
  let ngwords := strSplitSpace ngroup
  if adp_loc ≠ [] then
    let (start_i, groups) := adp_loc.foldl
      (fun (st : Nat × List (String × NGAttr)) adp =>
        let start_i := st.1
        let groups :=
          if ¬ adpnadp_loc.contains start_i ∧ ¬ adp_loc.contains start_i ∧
              start_i < adp then
            let w := strJoinSpace ((ngwords.drop start_i).take (adp - start_i))
            let ps := (pos.drop start_i).take (adp - start_i)
            let ls := (lemm.drop start_i).take (adp - start_i)
            setValues st.2 w ps ls
          else st.2
        if adpnadp_loc.contains adp then (adp + 3, groups)
        else (adp + 1, groups))
      (0, [])
    -- add the last group
    if start_i < ngwords.length then
      let w := strJoinSpace (ngwords.drop start_i)
      let ps := pos.drop start_i
      let ls := lemm.drop start_i
      setValues groups w ps ls
    else groups
  else []

/-! ### `NounGroup.add_word_cluster` and `NounGroup.parse_noun_groups` -/

/-- The leading-token strip of `add_word_cluster`: walk from the front until
the first NOUN; `start_index` is set just past the last ADPOSITION seen.
(The source would raise past the end of a NOUN-free cluster; clusters always
end in a NOUN, so the fall-through value is unreachable there.) -/
def stripStart : Nat → Nat → List String → Nat
  | si, _, [] => si
  | si, i, p :: rest =>
      if p = "NOUN" then si
      else stripStart (if p = "ADPOSITION" then i + 1 else si) (i + 1) rest

/-- `add_word_cluster(current_word, pos_sequence, lemma_sequence)` applied to
a noun-group dict `ng`. -/
def addWordCluster (ng : List (String × NGAttr)) (current_word : String)
    (pos_sequence lemma_sequence : List String) : List (String × NGAttr) :=
  let start_index := stripStart 0 0 pos_sequence
  let current_word := strJoinSpace ((strSplitSpace current_word).drop start_index)
  let pos_sequence := pos_sequence.drop start_index
  let lemma_sequence := lemma_sequence.drop start_index
  let ng :=
    if current_word ≠ "" then setValues ng current_word pos_sequence lemma_sequence
    else ng
  match decomposeNounGroup current_word pos_sequence lemma_sequence with
  | [] => ng
  | g :: gs =>
    match alookup ng current_word with
    | some (.mk p l t _ h a c) => aset ng current_word (.mk p l t (g :: gs) h a c)
    | none => ng    -- source would raise KeyError; unreachable (a nonempty decompose forces the word in ng)

/-- State of the reversed scan in `parse_noun_groups`. -/
structure ScanState where
  group_start : Bool
  current_word : String
  pos_sequence : List String
  lemma_sequence : List String
  ng : List (String × NGAttr)

/-- One step of the reversed word loop of `parse_noun_groups`. -/
def scanStep (st : ScanState) (word : Word) : ScanState :=
  let is_noun := word.upos == "NOUN"
  let is_adj := word.upos == "ADJ"
  let is_adp := word.upos == "ADP"
  if is_noun && !st.group_start then
    { st with
      group_start := true
      current_word := word.text
      pos_sequence := ["NOUN"]
      lemma_sequence := [word.lemm] }
  else if is_noun && st.group_start then
    { st with
      current_word := word.text ++ " " ++ st.current_word
      pos_sequence := "NOUN" :: st.pos_sequence
      lemma_sequence := word.lemm :: st.lemma_sequence }
  else if is_adj && st.group_start &&
      !(st.pos_sequence.headD "" == "ADPOSITION") then
    { st with
      current_word := word.text ++ " " ++ st.current_word
      pos_sequence := "ADJECTIVE" :: st.pos_sequence
      lemma_sequence := word.lemm :: st.lemma_sequence }
  else if is_adp && st.group_start then
    { st with
      current_word := word.text ++ " " ++ st.current_word
      pos_sequence := "ADPOSITION" :: st.pos_sequence
      lemma_sequence := word.lemm :: st.lemma_sequence }
  else
    let st := { st with group_start := false }
    if st.current_word ≠ "" then
      { st with
        ng := addWordCluster st.ng st.current_word st.pos_sequence st.lemma_sequence
        pos_sequence := []
        current_word := "" }
    else st

/-- `NounGroup.parse_noun_groups(words)`: scan the words in reverse, emit
each maximal noun/adjective/adposition cluster. -/
def parseNounGroups (words : List Word) : List (String × NGAttr) :=
  let st := words.reverse.foldl scanStep
    ⟨false, "", [], [], []⟩
  if st.current_word ≠ "" then
    addWordCluster st.ng st.current_word st.pos_sequence st.lemma_sequence
  else st.ng

/-! ## `knowledge_graph.py` — the `SciVarKG` data model

A graph node is the Python attribute dict of one technical term.  Optional
fields model optional dict keys (`none` = key absent).  Score-map keys are
`PK` (Python dict keys can be ints — `hash()` values — or strings — loaded
JSON / WM-indicator names).  `hasSVOMatch` values are lists whose elements
Python lets be either a hash or (via the synonym-merge transfer, which
appends a whole list) a nested list — hence `HashItem`. -/

/-- A Python dict key used in the score maps: an `hash()` integer or a
string. -/
inductive PK where
  | i : Int → PK
  | s : String → PK
  deriving DecidableEq, Repr

/-- An element of a `hasSVOMatch` class list: a hash, or a nested list
(appended verbatim by `update_synonyms`, whose membership test compares a
whole list against the list's elements — Python `v in lst`). -/
inductive HashItem where
  | hashv : Int → HashItem
  | nested : List HashItem → HashItem

-- Python `==` on `hasSVOMatch` list elements: an int never equals a
-- list; lists compare elementwise.
mutual

def HashItem.beq : HashItem → HashItem → Bool
  | .hashv a, .hashv b => a == b
  | .nested a, .nested b => HashItem.beqList a b
  | _, _ => false

def HashItem.beqList : List HashItem → List HashItem → Bool
  | [], [] => true
  | x :: xs, y :: ys => HashItem.beq x y && HashItem.beqList xs ys
  | _, _ => false

end

instance : BEq HashItem := ⟨HashItem.beq⟩

/-- The value of `isComponentOf`: `add_components` assigns a bare string,
`add_noun_components` assigns a list. -/
inductive CompOfVal where
  | str : String → CompOfVal
  | list : List String → CompOfVal
  deriving DecidableEq, Repr

/-- One term node of the knowledge graph (the per-key dict of
`SciVarKG.graph`). -/
structure Node where
  pos_seq : List String := []
  lemma_seq : List String := []
  type : String := ""
  hasComponents : Option (List String) := none
  isComponentOf : Option CompOfVal := none
  isTypeOf : Option (List String) := none
  hasType : Option (List String) := none
  hasAttribute : Option (List String) := none
  isAttributeOf : Option (List String) := none
  isRelatedTo : Option (List String) := none
  hasSynonym : Option (List String) := none
  hasWWNCategory : Option (List String) := none
  hasWWNDefinition : Option (List String) := none
  isDefinedBy : Option (List String) := none
  isCloselyRelatedTo : Option (List String) := none
  isWWNDefinedBy : Option (List String) := none
  hasSVOMatch : Option (List (String × List HashItem)) := none
  hasSVOVar : Option (List (PK × ℚ)) := none
  hasSVOEntity : Option (List (PK × ℚ)) := none
  hasWMIndicator : Option (List (PK × ℚ)) := none
  modified_terms : Option (List String) := none
  term_aspects : Option (List String) := none
  detSVOCategory : Option String := none

abbrev Graph := List (String × Node)
abbrev IMap := List (String × String)

/-- One row of the `svoapi.rank_search` result frame (the columns
`add_svo_info` reads). -/
structure SvoRow where
  term : String
  entity : String
  entitypreflabel : String
  entitylabel : String
  entityclass : String
  rank : ℚ
  deriving DecidableEq, Repr

/-- One record of `svo_index_map` (`namespace` is a Lean keyword, hence
`namesp`; `class` likewise, hence `eclass`). -/
structure SvoRec where
  namesp : String
  entity : String
  preflabel : String
  eclass : String
  deriving DecidableEq, Repr

/-- An external lookup performed during the build (recorded so that
"no fetch happens" is provable). -/
inductive ExtCall where
  | wwn : String → ExtCall
  | svo : List String → ExtCall
  | wiki : String → ExtCall
  deriving DecidableEq, Repr

/-- The result of `wikipediaapi.get_wikipedia_text`:
`[text, disambig, title, redirecttitle]`. -/
structure WikiText where
  text : List String
  disambig : Bool
  title : String
  redirecttitle : String
  deriving DecidableEq, Repr

/-- One row of `ParsedDoc.get_term_noun_groups` (the columns
`add_dimensions` reads). -/
structure TermNGRow where
  noun_group : String
  modified : Bool
  aspects : Bool
  deriving DecidableEq, Repr

/-- The external collaborators, supplied as oracles: WiktiWordNet's
`get_category`, SVO's `rank_search`, Wikipedia's `get_wikipedia_text`,
Python's runtime `hash`, and the Stanza-backed parsing of a paragraph into
tagged sentences.  `sentIsNsubj` is the verdict of
`ParsedSentence.find_is_nsubj` (a function of the parser's dependency
output, which the specification treats as opaque); `docTermNG` likewise
summarises `ParsedDoc.get_term_noun_groups`. -/
structure World where
  wwnCategory : String → List (String × String)
  svoRank : List String → List SvoRow
  wiki : String → WikiText
  hashFn : String → Int
  parseParagraph : String → List (List Word)
  sentIsNsubj : List Word → String → Bool
  docTermNG : List String → String → List TermNGRow

/-- The mutable state of a `SciVarKG` object plus the log of external
lookups. -/
structure KGState where
  graph : Graph := []
  index_map : IMap := []
  svo_index_map : List (Int × SvoRec) := []
  callLog : List ExtCall := []

/-- `SciVarKG.category_names`: the reserved top-level category words. -/
def categoryNames : List String :=
  ["process", "property", "phenomenon", "role", "attribute",
   "matter", "body", "domain", "operator", "variable",
   "part", "trajectory", "form", "condition", "state",
   "abstraction", "equation", "expression"]

/-- The guarded append used throughout the source:
`if key absent: [v] / elif v not in list: append(v)`. -/
def appendDedup (l : Option (List String)) (v : String) : Option (List String) :=
  match l with
  | none => some [v]
  | some l => if ¬ l.contains v then some (l ++ [v]) else some l

/-- `SciVarKG.add_index_map(index, synonym)`. -/
def addIndexMap (st : KGState) (index synonym : String) : KGState :=
  if ¬ (akeys st.index_map).contains synonym ∧ (akeys st.graph).contains index
  then { st with index_map := aset st.index_map synonym index }
  else st

/-- The unconditional first half of `add_term_node`: create the stub node
`{'pos_seq', 'lemma_seq', 'type'}` and self-register it in the index map
when the (case-folded) name is new. -/
def stubState (name_lower : String) (attr : NGAttr) (st : KGState) : KGState :=
  if (akeys st.index_map).contains name_lower then st
  else
    let stub : Node :=
      { pos_seq := attr.pos_seq, lemma_seq := attr.lemma_seq, type := attr.type }
    let st := { st with graph := aset st.graph name_lower stub }
    addIndexMap st name_lower name_lower

/-! ### `add_wwn_info` and `add_svo_info` -/

/-- `SciVarKG.add_wwn_info(name)`: attach WiktiWordNet categories and
definitions (falling back to the lemma when the term itself has none). -/
def addWwnInfo (w : World) (name : String) (st : KGState) :
    Except PyErr KGState := do
  let name_index ← pyGet st.index_map name
  let node ← pyGet st.graph name        -- `self.graph[name]`, not `name_index`
  let lemm := strLower (strJoinSpace node.lemma_seq)
  let st := { st with callLog := st.callLog ++ [.wwn name] }
  let categories := w.wwnCategory name
  let (st, categories) :=
    if categories = [] ∧ lemm ≠ "" then
      ({ st with callLog := st.callLog ++ [.wwn lemm] }, w.wwnCategory lemm)
    else (st, categories)
  categories.foldlM (fun st (cd : String × String) => do
    let ni ← pyGet st.graph name_index
    let ni := { ni with hasWWNCategory := appendDedup ni.hasWWNCategory cd.1 }
    let ni := { ni with hasWWNDefinition := appendDedup ni.hasWWNDefinition cd.2 }
    pure { st with graph := aset st.graph name_index ni }) st

/-- `np.unique`: sorted deduplicated values. -/
def strLeB (a b : String) : Bool := a.data ≤ b.data |> decide

def insSorted (x : String) : List String → List String
  | [] => [x]
  | y :: ys => if strLeB x y then x :: y :: ys else y :: insSorted x ys

def dedupAdj : List String → List String
  | [] => []
  | [x] => [x]
  | x :: y :: ys => if x = y then dedupAdj (y :: ys) else x :: dedupAdj (y :: ys)

def npUnique (l : List String) : List String := dedupAdj (l.foldr insSorted [])

/-- `entity.split('/')[-1].split('#')[0]` -/
def svoNamespaceOf (entity : String) : String :=
  (strSplitChar '#' ((strSplitChar '/' entity).getLastD "")).headD ""

/-- `entity.split('#')[-1]` -/
def svoEntityOf (entity : String) : String :=
  (strSplitChar '#' entity).getLastD ""

/-- `SciVarKG.add_svo_index_map(svo)`. -/
def addSvoIndexMap (w : World) (svo : SvoRow) (st : KGState) : KGState :=
  let svo_namespace := svoNamespaceOf svo.entity
  let svo_entity := svoEntityOf svo.entity
  let svo_hash := w.hashFn (svo_namespace ++ svo_entity)
  if (alookup st.svo_index_map svo_hash).isNone then
    let rec0 : SvoRec :=
      { namesp := svo_namespace
        entity := svo_entity
        preflabel := svo.entitypreflabel
        eclass := svo.entityclass }
    { st with svo_index_map := aset st.svo_index_map svo_hash rec0 }
  else st    -- an overlapping hash only prints a warning

/-- `max(lst)` on a nonempty rank list. -/
def listMaxQ : List ℚ → ℚ
  | [] => 0           -- Python `max([])` raises; unreachable (per-entity rows are nonempty)
  | x :: xs => xs.foldl pymax x

/-- `SciVarKG.add_svo_info(name)`: query the ontology for single-word terms
and partition the hits into exact matches (`hasSVOMatch`), non-exact
Variable matches (`hasSVOVar`, max-merged) and other non-exact matches
(`hasSVOEntity`, max-merged). -/
def addSvoInfo (w : World) (name : String) (st : KGState) :
    Except PyErr KGState := do
  let name_index ← pyGet st.index_map name
  if (strSplitSpace name).length == 1 then
    let node ← pyGet st.graph name_index
    let lemm ← match node.lemma_seq.head? with
      | some l => Except.ok l
      | none => Except.error PyErr.indexError     -- `lemma_seq[0]`
    let st := { st with callLog := st.callLog ++ [.svo [name, lemm]] }
    let results := w.svoRank [name, lemm]
    let exact_match := results.filter (fun r => r.rank == 1)
    let variable_match := results.filter
      (fun r => r.entityclass == "Variable" && r.rank != 1)
    let other_match := results.filter
      (fun r => r.entityclass != "Variable" && r.rank != 1)
    -- exact matches, grouped by entity class
    let st ← (npUnique (exact_match.map (·.entity))).foldlM (fun st entity => do
      let eme := exact_match.filter (fun r => r.entity == entity)
      let first ← match eme.head? with
        | some r => Except.ok r
        | none => Except.error PyErr.indexError   -- `.iloc[0]`
      let st := addSvoIndexMap w first st
      let svo_hash := w.hashFn (svoNamespaceOf entity ++ svoEntityOf entity)
      let svo_class := first.entityclass
      let ni ← pyGet st.graph name_index
      let ni :=
        match ni.hasSVOMatch with
        | none => { ni with hasSVOMatch := some [(svo_class, [HashItem.hashv svo_hash])] }
        | some m =>
          match alookup m svo_class with
          | none => { ni with hasSVOMatch := some (aset m svo_class [HashItem.hashv svo_hash]) }
          | some lst =>
            if ¬ lst.contains (HashItem.hashv svo_hash) then
              { ni with hasSVOMatch := some (aset m svo_class (lst ++ [HashItem.hashv svo_hash])) }
            else ni
      pure { st with graph := aset st.graph name_index ni }) st
    -- non-exact Variable matches, max-merged
    let st ← (npUnique (variable_match.map (·.entity))).foldlM (fun st entity => do
      let vme := variable_match.filter (fun r => r.entity == entity)
      let first ← match vme.head? with
        | some r => Except.ok r
        | none => Except.error PyErr.indexError
      let st := addSvoIndexMap w first st
      let svo_hash := w.hashFn (svoNamespaceOf entity ++ svoEntityOf entity)
      let rank := listMaxQ (vme.map (·.rank))
      let ni ← pyGet st.graph name_index
      let ni :=
        match ni.hasSVOVar with
        | none => { ni with hasSVOVar := some [(PK.i svo_hash, rank)] }
        | some m =>
          match alookup m (PK.i svo_hash) with
          | none => { ni with hasSVOVar := some (aset m (PK.i svo_hash) rank) }
          | some old => { ni with hasSVOVar := some (aset m (PK.i svo_hash) (pymax rank old)) }
      pure { st with graph := aset st.graph name_index ni }) st
    -- other non-exact matches, max-merged
    (npUnique (other_match.map (·.entity))).foldlM (fun st entity => do
      let ome := other_match.filter (fun r => r.entity == entity)
      let first ← match ome.head? with
        | some r => Except.ok r
        | none => Except.error PyErr.indexError
      let st := addSvoIndexMap w first st
      let svo_hash := w.hashFn (svoNamespaceOf entity ++ svoEntityOf entity)
      let rank := listMaxQ (ome.map (·.rank))
      let ni ← pyGet st.graph name_index
      let ni :=
        match ni.hasSVOEntity with
        | none => { ni with hasSVOEntity := some [(PK.i svo_hash, rank)] }
        | some m =>
          match alookup m (PK.i svo_hash) with
          | none => { ni with hasSVOEntity := some (aset m (PK.i svo_hash) rank) }
          | some old => { ni with hasSVOEntity := some (aset m (PK.i svo_hash) (pymax rank old)) }
      pure { st with graph := aset st.graph name_index ni }) st
  else pure st

/-! ### Definition mining: `add_related`, `add_definition`, `add_dimensions`,
`add_wikipedia_def`, `add_wwn_def`, `expand_node` -/

/-- `SciVarKG.add_related(name, title, name_orig)`. -/
def addRelated (name title name_orig : String) (st : KGState) :
    Except PyErr KGState := do
  let st ←
    if name ≠ title then do
      let src ← pyGet st.index_map name
      let node ← pyGet st.graph src
      let node := { node with isRelatedTo := appendDedup node.isRelatedTo title }
      pure { st with graph := aset st.graph src node }
    else pure st
  if name ≠ name_orig then do
    let src ← pyGet st.index_map name_orig
    let node ← pyGet st.graph src
    let node := { node with hasSynonym := appendDedup node.hasSynonym name }
    let st := { st with graph := aset st.graph src node }
    pure (addIndexMap st src name)
  else pure st

/-- `SciVarKG.add_definition(name, name_found, nodes_par)`: noun groups of
the first defining sentence become `isDefinedBy`, of the second
`isCloselyRelatedTo` (`max_i = min(#sentences, 3)`, sentences numbered
from 1). -/
def addDefinition (name name_found : String)
    (nodes_par : List (List (String × NGAttr))) (st : KGState) :
    Except PyErr KGState := do
  let name_index ← pyGet st.index_map name
  let max_i := min nodes_par.length 3
  (List.range' 1 (max_i - 1)).foldlM (fun st i => do
    let nodes ← match nodes_par.get? (i - 1) with
      | some n => Except.ok n
      | none => Except.error PyErr.keyError
    nodes.foldlM (fun st (na : String × NGAttr) => do
      if strLower na.1 ≠ name_found then
        let ni ← pyGet st.graph name_index
        let ni :=
          if i == 1 then
            { ni with isDefinedBy := appendDedup ni.isDefinedBy (strLower na.1) }
          else
            { ni with isCloselyRelatedTo :=
                appendDedup ni.isCloselyRelatedTo (strLower na.1) }
        pure { st with graph := aset st.graph name_index ni }
      else pure st) st) st

/-- `SciVarKG.add_dimensions(name, name_found, noun_groups_index)`. -/
def addDimensions (name name_found : String) (rows : List TermNGRow)
    (st : KGState) : Except PyErr KGState := do
  let name_index ← pyGet st.index_map name
  let node ← pyGet st.graph name_index
  let modified := (rows.filter (·.modified)).map (·.noun_group)
  let aspects := (rows.filter (·.aspects)).map (·.noun_group)
  let node := { node with modified_terms := some (modified.filter (· ≠ name_found)) }
  let node := { node with term_aspects := some (aspects.filter (· ≠ name_found)) }
  pure { st with graph := aset st.graph name_index node }

/-- `ParsedParagraph.find_is_nsubj` (first-only): number of the first
sentence whose subject analysis matches the term. -/
def parFindIsNsubj (w : World) (sentences : List (List Word))
    (term_lower : String) : Option Nat :=
  go 1 sentences
where
  go : Nat → List (List Word) → Option Nat
    | _, [] => none
    | sno, s :: rest =>
        if w.sentIsNsubj s term_lower then some sno else go (sno + 1) rest

/-- `ParsedDoc.find_is_nsubj` (first-only): `(pno, sno)` of the first
matching sentence. -/
def docFindIsNsubj (w : World) (paragraphs : List (List (List Word)))
    (term : String) : Option (Nat × Nat) :=
  go 1 paragraphs
where
  go : Nat → List (List (List Word)) → Option (Nat × Nat)
    | _, [] => none
    | pno, p :: rest =>
        match parFindIsNsubj w p (strLower term) with
        | some sno => some (pno, sno)
        | none => go (pno + 1) rest

/-- `SciVarKG.add_wikipedia_def(name, long)`: fetch the page, resolve the
name to use (page title for redirects / lemma matches / parenthesised
synonym cues), wire `isRelatedTo` / `hasSynonym`, then mine the first
defining paragraph.  The document structure (`ParsedDoc`) is rebuilt from
the oracle parser on the page's nonempty paragraphs. -/
def addWikipediaDef (w : World) (name : String) (lng : Bool) (st : KGState) :
    Except PyErr KGState := do
  let st := { st with callLog := st.callLog ++ [.wiki name] }
  let wt := w.wiki name
  let node ← pyGet st.graph name        -- `self.graph[name]`
  let lemm := strLower (strJoinSpace node.lemma_seq)
  let title_lower := strReplace (strLower wt.title) "\\s+" ""
  let redirect_lower := strReplace (strLower wt.redirecttitle) "\\s+" ""
  if !wt.disambig then
    let syn := containsSub title_lower ("(" ++ name ++ ")") ||
               containsSub title_lower ("(" ++ lemm ++ ")") ||
               containsSub redirect_lower ("(" ++ name ++ ")") ||
               containsSub redirect_lower ("(" ++ lemm ++ ")")
    let use_name :=
      if name == redirect_lower || lemm == title_lower ||
          lemm == redirect_lower || syn then title_lower
      else name
    let st ← addRelated use_name title_lower name st
    let use_name_index ← pyGet st.index_map use_name
    let nodeU ← pyGet st.graph use_name_index
    if nodeU.isDefinedBy.isNone then
      let paragraphs := (wt.text.filter (· ≠ "")).map w.parseParagraph
      match docFindIsNsubj w paragraphs use_name with
      | none => pure st
      | some (pno, _sno) => do
        let par ← match paragraphs.get? (pno - 1) with
          | some p => Except.ok p
          | none => Except.error PyErr.keyError
        let def_noun_groups := par.map parseNounGroups
        let st ← addDefinition name use_name def_noun_groups st
        if lng then
          let rows := w.docTermNG wt.text use_name
          addDimensions name use_name rows st
        else pure st
    else pure st
  else pure st

/-- `SciVarKG.add_wwn_def(name)`: parse each stored WiktiWordNet definition
and add its first sentence's noun groups as `isWWNDefinedBy`. -/
def addWwnDef (w : World) (name : String) (st : KGState) :
    Except PyErr KGState := do
  let name_index ← pyGet st.index_map name
  let node ← pyGet st.graph name_index
  match node.hasWWNDefinition with
  | none => pure st
  | some defs =>
    defs.foldlM (fun st defn => do
      -- `ParsedParagraph(definition).get_noun_groups(1)`
      let sentences := w.parseParagraph defn
      if defn ≠ "" ∧ sentences = [] then Except.error PyErr.valueError
      else
        match sentences.head? with
        | none => Except.error PyErr.keyError      -- `self.sentences[1]`
        | some firstSent =>
          (parseNounGroups firstSent).foldlM (fun st (na : String × NGAttr) => do
            if strLower na.1 ≠ name then
              let ni ← pyGet st.graph name_index
              let newl := appendDedup ni.isWWNDefinedBy (strLower na.1)
              let ni := { ni with isWWNDefinedBy := newl }
              pure { st with graph := aset st.graph name_index ni }
            else pure st) st) st

/-- `SciVarKG.expand_node(word)`. -/
def expandNode (w : World) (word : String) (st : KGState) :
    Except PyErr KGState :=
  if ¬ categoryNames.contains word then do
    let st ← addWikipediaDef w word true st
    addWwnDef w word st
  else pure st

/-! ### `add_components`, `add_type_attr`, `add_noun_components`,
`add_term_node`

`add_term_node` is mutually recursive with its three decomposition helpers;
the recursion always strictly shrinks the attribute tree, and is embedded
with an explicit fuel parameter (structural recursion on fuel): each helper
receives the recursive continuation `atn = addTermNode w fuel`. -/

/-- The type of the recursive continuation into `add_term_node`. -/
abbrev ATN := String → NGAttr → KGState → Except PyErr KGState

/-- `SciVarKG.add_components(word, attr)`.  Two faithful oddities of the
source: the `hasComponents` list is `extend`ed without deduplication, and
the `isComponentOf` append branch reads the undefined global `graph` —
a `NameError` whenever `isComponentOf` is already present. -/
def addComponents (atn : ATN) (word : String) (attr : NGAttr) (st : KGState) :
    Except PyErr KGState := do
  let word_index ← pyGet st.index_map word
  let st ←
    match attr.components with
    | [] => pure st
    | _ :: _ => do
      let components_list := akeys attr.components
      let nodeW ← pyGet st.graph word      -- condition tested on `self.graph[word]`
      let st ←
        if nodeW.hasComponents.isNone then do
          let nodeWI ← pyGet st.graph word_index
          let nodeWI := { nodeWI with hasComponents := some components_list }
          pure { st with graph := aset st.graph word_index nodeWI }
        else do
          let nodeWI ← pyGet st.graph word_index
          match nodeWI.hasComponents with
          | some l =>      -- `.extend(components_list)`: no deduplication
            let nodeWI := { nodeWI with hasComponents := some (l ++ components_list) }
            pure { st with graph := aset st.graph word_index nodeWI }
          | none => Except.error PyErr.keyError    -- `.extend` on a missing key
      attr.components.foldlM (fun st (ca : String × NGAttr) => do
        let comp_lower := strLower ca.1
        let comp_attr ← match alookup attr.components comp_lower with
          | some a => Except.ok a
          | none => Except.error PyErr.keyError    -- `attr['components'][comp_lower]`
        let comp_attr := comp_attr.withComponentOf word
        atn comp_lower comp_attr st) st
  match attr.component_of with
  | none => pure st
  | some comp_of0 =>
    let comp_of := strLower comp_of0
    let nodeWI ← pyGet st.graph word_index
    if nodeWI.isComponentOf.isNone then
      let nodeWI := { nodeWI with isComponentOf := some (.str comp_of) }
      pure { st with graph := aset st.graph word_index nodeWI }
    else
      -- `elif not comp_of in graph[word_index]['isComponentOf']`:
      -- the bare name `graph` is undefined in this scope → NameError
      Except.error PyErr.nameError

/-- `SciVarKG.add_type_attr(word, attr)`: wire `isTypeOf`/`hasType` and
`hasAttribute`/`isAttributeOf`, recursing into each sub-term. -/
def addTypeAttr (atn : ATN) (word : String) (attr : NGAttr) (st : KGState) :
    Except PyErr KGState := do
  let word_index ← pyGet st.index_map word
  let st ← attr.has_type.foldlM (fun st (nt : String × NGAttr) => do
    let st ← atn nt.1 nt.2 st
    let nodeWI ← pyGet st.graph word_index
    let nodeWI := { nodeWI with isTypeOf := appendDedup nodeWI.isTypeOf nt.1 }
    let st := { st with graph := aset st.graph word_index nodeWI }
    let nodeT ← pyGet st.graph nt.1       -- `self.graph[node_type]`
    let nodeT := { nodeT with hasType := appendDedup nodeT.hasType word }
    pure { st with graph := aset st.graph nt.1 nodeT }) st
  attr.has_attribute.foldlM (fun st (na : String × NGAttr) => do
    let st ← atn na.1 na.2 st
    let nodeWI ← pyGet st.graph word_index
    let nodeWI := { nodeWI with hasAttribute := appendDedup nodeWI.hasAttribute na.1 }
    let st := { st with graph := aset st.graph word_index nodeWI }
    let nodeA ← pyGet st.graph na.1       -- `self.graph[node_attr]`
    let nodeA := { nodeA with isAttributeOf := appendDedup nodeA.isAttributeOf word }
    pure { st with graph := aset st.graph na.1 nodeA }) st

/-- The guarded list append of `add_noun_components` on `isComponentOf`,
whose stored value may be the bare string set by `add_components`:
Python then runs `name in <str>` (substring test) and, on a miss,
`<str>.append(...)` → AttributeError. -/
def appendCompOf (v : Option CompOfVal) (name : String) :
    Except PyErr (Option CompOfVal) :=
  match v with
  | none => .ok (some (.list [name]))
  | some (.list l) =>
    if ¬ l.contains name then .ok (some (.list (l ++ [name]))) else .ok v
  | some (.str s) =>
    if ¬ containsSub s name then .error .attributeError else .ok v

/-- `SciVarKG.add_noun_components(name, attr)`: split a `noungrp` into its
nouns, one `single-noun` sub-term per word. -/
def addNounComponents (atn : ATN) (name : String) (attr : NGAttr)
    (st : KGState) : Except PyErr KGState := do
  let name_index ← pyGet st.index_map name
  if attr.type == "noungrp" then
    let lemma_seq := attr.lemma_seq
    ((strSplitSpace name).zip (List.range (strSplitSpace name).length)).foldlM
      (fun st (ci : String × Nat) => do
        let comp_name := ci.1
        let li ← match lemma_seq.get? ci.2 with
          | some l => Except.ok l
          | none => Except.error PyErr.indexError    -- `lemma_seq[i]`
        let attr2 : NGAttr := NGAttr.base ["NOUN"] [li] "noun"
        let st ← atn comp_name attr2 st
        let ni ← pyGet st.graph name_index
        let ni := { ni with hasComponents := appendDedup ni.hasComponents comp_name }
        let st := { st with graph := aset st.graph name_index ni }
        let comp_index ← pyGet st.index_map comp_name
        let nc ← pyGet st.graph comp_index
        let newco ← appendCompOf nc.isComponentOf name
        let nc := { nc with isComponentOf := newco }
        pure { st with graph := aset st.graph comp_index nc }) st
  else pure st

/-- `SciVarKG.add_term_node(name, attr)`: create the node if new, then —
unless the term or its lemma is a reserved category name — decompose it and
annotate it from the external services. -/
def addTermNode (w : World) : Nat → String → NGAttr → KGState →
    Except PyErr KGState
  | 0, _, _, _ => .error .fuelOut
  | fuel + 1, name, attr, st =>
    let lemm := strLower (strJoinSpace attr.lemma_seq)
    let name_lower := strLower name
    let st := stubState name_lower attr st
    if !(categoryNames.contains name_lower) && !(categoryNames.contains lemm)
    then do
      let st ← addComponents (addTermNode w fuel) name_lower attr st
      let st ← addTypeAttr (addTermNode w fuel) name_lower attr st
      let st ← addNounComponents (addTermNode w fuel) name_lower attr st
      let st ← addWwnInfo w name_lower st
      let st ← addSvoInfo w name_lower st
      expandNode w name_lower st
    else pure st

/-! ### `get_children`, `create_concept_levels`, `add_concept` -/

/-- `SciVarKG.get_children(node_name)`: the `isDefinedBy` and
`isWWNDefinedBy` targets of the node's canonical entry. -/
def getChildren (st : KGState) (node_name : String) :
    Except PyErr (List String) :=
  if (akeys st.index_map).contains node_name then do
    let name_index := (alookup st.index_map node_name).getD ""
    let node ← pyGet st.graph name_index
    pure ((node.isDefinedBy.getD []) ++ (node.isWWNDefinedBy.getD []))
  else pure []

/-- `SciVarKG.create_concept_levels(variable, depth)`: parse the phrase,
add a node per extracted noun group, then recurse into each child at
`depth - 1`.  (Source argument order is `(variable, depth)`; `depth` comes
first here so the recursion is structural.) -/
def createConceptLevels (w : World) (fuel : Nat) : Nat → String → KGState →
    Except PyErr KGState
  | 0, _, st => .ok st
  | depth + 1, var, st =>
    if var ≠ "" then
      -- `ParsedParagraph(variable).get_noun_groups()`
      match w.parseParagraph var with
      | [] => .error .valueError       -- `max(self.sentences.keys())` on no sentences
      | s :: ss =>
        ((s :: ss).map parseNounGroups).foldlM (fun st ng =>
          ng.foldlM (fun st (na : String × NGAttr) => do
            let noung := strLower na.1
            let st ← addTermNode w fuel noung na.2 st
            let children ← getChildren st noung
            children.foldlM (fun st n => createConceptLevels w fuel depth n st)
              st) st) st
    else .ok st

/-- `SciVarKG.add_concept(var, depth)`: clamp the depth to at most 3, then
expand. -/
def addConcept (w : World) (fuel : Nat) (var : String) (depth : Nat)
    (st : KGState) : Except PyErr KGState :=
  createConceptLevels w fuel (if depth > 3 then 3 else depth) var st

/-! ### `update_synonyms` — the synonym-merge pass

The transfer loop iterates over the duplicate node's dict items; distinct
transfer fields touch disjoint parts of the target node, so they are
processed here in the fixed order of `transfer_links_list` /
`transfer_links_dict` (any dict iteration order yields the same state). -/

/-- Transfer of one list-valued link (`isDefinedBy`, `isWWNDefinedBy`,
`hasWWNCategory`, `hasWWNDefinition`).  The source's two-way branch:
present-and-absent-value → append; otherwise (absent field, but also a
value already present!) → overwrite with `[v]`. -/
def transferListField (get : Node → Option (List String))
    (put : Node → Option (List String) → Node)
    (vals : List String) (g : Graph) (tgt : String) : Except PyErr Graph :=
  vals.foldlM (fun g v => do
    let node ← pyGet g tgt
    match get node with
    | some l =>
      if ¬ l.contains v then pure (aset g tgt (put node (some (l ++ [v]))))
      else pure (aset g tgt (put node (some [v])))
    | none => pure (aset g tgt (put node (some [v])))) g

/-- Transfer of one score map (`hasSVOVar`, `hasSVOEntity`,
`hasWMIndicator`): three-way branch, max-merging existing keys. -/
def transferDictField (get : Node → Option (List (PK × ℚ)))
    (put : Node → Option (List (PK × ℚ)) → Node)
    (vals : List (PK × ℚ)) (g : Graph) (tgt : String) : Except PyErr Graph :=
  vals.foldlM (fun g kv => do
    let node ← pyGet g tgt
    match get node with
    | some m =>
      match alookup m kv.1 with
      | some old => pure (aset g tgt (put node (some (aset m kv.1 (pymax old kv.2)))))
      | none => pure (aset g tgt (put node (some (aset m kv.1 kv.2))))
    | none => pure (aset g tgt (put node (some [kv])))) g

/-- Transfer of `hasSVOMatch`: the value `v` is a whole list, compared (and
appended) as a single element — and nothing happens when the target lacks
the field. -/
def transferMatchField (vals : List (String × List HashItem)) (g : Graph)
    (tgt : String) : Except PyErr Graph :=
  vals.foldlM (fun g kv => do
    let node ← pyGet g tgt
    match node.hasSVOMatch with
    | some m =>
      match alookup m kv.1 with
      | some lst =>
        if ¬ lst.contains (HashItem.nested kv.2) then
          pure (aset g tgt
            { node with hasSVOMatch := some (aset m kv.1 (lst ++ [HashItem.nested kv.2])) })
        else pure g
      | none =>
        pure (aset g tgt
          { node with hasSVOMatch := some (aset m kv.1 [HashItem.nested kv.2]) })
    | none => pure g) g

def setIsDefinedBy (n : Node) (v : Option (List String)) : Node :=
  { n with isDefinedBy := v }
def setIsWWNDefinedBy (n : Node) (v : Option (List String)) : Node :=
  { n with isWWNDefinedBy := v }
def setHasWWNCategory (n : Node) (v : Option (List String)) : Node :=
  { n with hasWWNCategory := v }
def setHasWWNDefinition (n : Node) (v : Option (List String)) : Node :=
  { n with hasWWNDefinition := v }
def setHasSVOVar (n : Node) (v : Option (List (PK × ℚ))) : Node :=
  { n with hasSVOVar := v }
def setHasSVOEntity (n : Node) (v : Option (List (PK × ℚ))) : Node :=
  { n with hasSVOEntity := v }
def setHasWMIndicator (n : Node) (v : Option (List (PK × ℚ))) : Node :=
  { n with hasWMIndicator := v }

/-- Fold the transferable attributes of a removed duplicate node into its
canonical target. -/
def transferNode (src : Node) (g : Graph) (tgt : String) :
    Except PyErr Graph := do
  let g ← match src.isDefinedBy with
    | some vals => transferListField Node.isDefinedBy setIsDefinedBy vals g tgt
    | none => pure g
  let g ← match src.isWWNDefinedBy with
    | some vals => transferListField Node.isWWNDefinedBy setIsWWNDefinedBy vals g tgt
    | none => pure g
  let g ← match src.hasWWNCategory with
    | some vals => transferListField Node.hasWWNCategory setHasWWNCategory vals g tgt
    | none => pure g
  let g ← match src.hasWWNDefinition with
    | some vals => transferListField Node.hasWWNDefinition setHasWWNDefinition vals g tgt
    | none => pure g
  let g ← match src.hasSVOVar with
    | some vals => transferDictField Node.hasSVOVar setHasSVOVar vals g tgt
    | none => pure g
  let g ← match src.hasSVOEntity with
    | some vals => transferDictField Node.hasSVOEntity setHasSVOEntity vals g tgt
    | none => pure g
  let g ← match src.hasWMIndicator with
    | some vals => transferDictField Node.hasWMIndicator setHasWMIndicator vals g tgt
    | none => pure g
  match src.hasSVOMatch with
  | some vals => transferMatchField vals g tgt
  | none => pure g

/-- `SciVarKG.update_synonyms()`: index every node carrying a `hasSynonym`
whose (lower-cased) first entry is an existing graph key, drop those nodes
from the graph, and fold their transferable attributes into the synonym
target. -/
def updateSynonyms (st : KGState) : Except PyErr KGState := do
  let init : List String × IMap := ([], st.index_map)
  let remIdx ← st.graph.foldlM
    (fun (acc : List String × IMap) (na : String × Node) => do
      match na.2.hasSynonym with
      | none => pure acc
      | some [] => Except.error PyErr.indexError       -- `attr[link][0]`
      | some (syn0 :: _) =>
        let synonym := strLower syn0
        if (akeys st.graph).contains synonym then
          pure (acc.1 ++ [na.1], aset acc.2 na.1 synonym)
        else if ¬ (akeys acc.2).contains na.1 then
          pure (acc.1, aset acc.2 na.1 na.1)
        else pure acc) init
  let rem_nodes := remIdx.1
  let index_map := remIdx.2
  let new_graph := st.graph.filter (fun na => ¬ rem_nodes.contains na.1)
  let new_graph ← st.graph.foldlM (fun g (na : String × Node) => do
    let new_index ← pyGet index_map na.1
    if rem_nodes.contains na.1 then transferNode na.2 g new_index
    else pure g) new_graph
  pure { st with graph := new_graph, index_map := index_map }

/-! ### `graph_define_svo_category` — the category-inference pass -/

/-- First loop: `adj` → Attribute; `noun` → resolved from `hasSVOMatch`
classes or `hasWWNCategory` tags by priority; anything else → Phenomenon. -/
def detCat1 (g : Graph) (term : String) : Except PyErr Graph := do
  let node ← pyGet g term
  if node.type == "adj" then
    pure (aset g term { node with detSVOCategory := some "Attribute" })
  else if node.type == "noun" then
    if node.hasSVOMatch.isSome || node.hasWWNCategory.isSome then
      let classes :=
        match node.hasSVOMatch with
        | some m => akeys m
        | none => node.hasWWNCategory.getD []
      if classes.contains "Phenomenon" || classes.contains "Matter" ||
          classes.contains "Role" || classes.contains "Form" then
        pure (aset g term { node with detSVOCategory := some "Phenomenon" })
      else if classes.contains "Property" then
        pure (aset g term { node with detSVOCategory := some "Property" })
      else if classes.contains "Attribute" then
        pure (aset g term { node with detSVOCategory := some "Attribute" })
      else if classes.contains "Process" then
        pure (aset g term { node with detSVOCategory := some "Process" })
      else
        match classes.head? with
        | some c => pure (aset g term { node with detSVOCategory := some c })
        | none => Except.error PyErr.indexError      -- `classes[0]`
    else pure (aset g term { node with detSVOCategory := some "Phenomenon" })
  else pure (aset g term { node with detSVOCategory := some "Phenomenon" })

/-- Second loop (`noungrp`): majority vote over the resolved categories of
the single-word components. -/
def detCat2 (im : IMap) (g : Graph) (term : String) : Except PyErr Graph := do
  let node ← pyGet g term
  if node.type == "noungrp" then
    let g := aset g term { node with detSVOCategory := some "Phenomenon" }
    let comps ← match node.hasComponents with
      | some c => Except.ok c
      | none => Except.error PyErr.keyError          -- `attr['hasComponents']`
    let categories ← comps.foldlM
      (fun (cats : List (String × Nat)) component => do
        if (akeys im).contains component then
          let comp_index := (alookup im component).getD ""
          if (strSplitSpace comp_index).length == 1 then
            let cnode ← pyGet g comp_index
            let cat ← match cnode.detSVOCategory with
              | some c => Except.ok c
              | none => Except.error PyErr.keyError
            match alookup cats cat with
            | none => pure (aset cats cat 1)
            | some n => pure (aset cats cat (n + 1))
          else pure cats
        else pure cats) []
    let winners := categories.foldl
      (fun (acc : List String × Nat) (cn : String × Nat) =>
        if cn.2 > acc.2 then ([cn.1], cn.2)
        else if cn.2 == acc.2 then (acc.1 ++ [cn.1], acc.2)
        else acc) ([], 0)
    let category := winners.1
    let node2 ← pyGet g term
    let newcat :=
      if category.contains "Phenomenon" && category.contains "Property" then
        "Variable"
      else if category.contains "Phenomenon" || category.isEmpty then
        "Phenomenon"
      else if category.contains "Property" then "Property"
      else if category.contains "Attribute" then "Attribute"
      else if category.contains "Process" then "Process"
      else category.headD ""      -- `category[0]`, nonempty in this branch
    pure (aset g term { node2 with detSVOCategory := some newcat })
  else pure g

/-- Third loop (`modnoun`): specialize the head type's category. Note the
source's Python `in` tests here are substring tests on the category
STRING. -/
def detCat3 (im : IMap) (g : Graph) (term : String) : Except PyErr Graph := do
  let node ← pyGet g term
  if node.type == "modnoun" then
    let g := aset g term { node with detSVOCategory := some "Phenomenon" }
    let ito ← match node.isTypeOf with
      | some l => Except.ok l
      | none => Except.error PyErr.keyError          -- `attr['isTypeOf']`
    let first ← match ito.head? with
      | some x => Except.ok x
      | none => Except.error PyErr.indexError        -- `[0]`
    if (akeys im).contains first then
      let typ := (alookup im first).getD ""
      let tnode ← pyGet g typ
      let category ← match tnode.detSVOCategory with
        | some c => Except.ok c
        | none => Except.error PyErr.keyError
      let node2 ← pyGet g term
      let newcat :=
        if containsSub category "Attribute" then "Attribute"
        else if containsSub category "Variable" then "Variable"
        else "Specialized" ++ category
      pure (aset g term { node2 with detSVOCategory := some newcat })
    else pure g
  else pure g

/-- Fourth loop: nodes of type `'adp'` whose name contains `' of '` —
note that `extract_type` labels adposition compounds `'compound'`, never
`'adp'`, so no node built by this code matches. -/
def detCat4 (im : IMap) (g : Graph) (term : String) : Except PyErr Graph := do
  let node ← pyGet g term
  if node.type == "adp" && containsSub term " of " then
    let g := aset g term { node with detSVOCategory := some "Phenomenon" }
    let comps ← match node.hasComponents with
      | some c => Except.ok c
      | none => Except.error PyErr.keyError          -- `attr['hasComponents']`
    let categories ← comps.foldlM
      (fun (cats : List (String × Nat)) comp => do
        let comp_index ← pyGet im comp
        let cnode ← pyGet g comp_index
        let cat ← match cnode.detSVOCategory with
          | some c => Except.ok c
          | none => Except.error PyErr.keyError
        match alookup cats cat with
        | none => pure (aset cats cat 1)
        | some n => pure (aset cats cat (n + 1))) []
    let ck := akeys categories
    let node2 ← pyGet g term
    let newcat : Option String :=
      if (ck.contains "Phenomenon" || ck.contains "SpecializedPhenomenon") &&
          (ck.contains "Property" || ck.contains "SpecializedProperty") then
        some "Variable"
      else if ck.contains "SpecializedPhenomenon" then some "SpecializedPhenomenon"
      else if ck.contains "Phenomenon" then some "Phenomenon"
      else if ck.contains "SpecializedProperty" then some "SpecializedProperty"
      else if ck.contains "Property" then some "Property"
      else if ck.contains "SpecializedAttribute" then some "SpecializedAttribute"
      else if ck.contains "Attribute" then some "Attribute"
      else if ck.contains "SpecializedProcess" then some "SpecializedProcess"
      else if ck.contains "Process" then some "Process"
      else none       -- falls through every `elif`: the initial 'Phenomenon' stays
    match newcat with
    | some c => pure (aset g term { node2 with detSVOCategory := some c })
    | none => pure g
  else pure g

/-- `SciVarKG.graph_define_svo_category()`: the four sequential whole-graph
loops (keys never change during the pass, so each loop walks the same key
list). -/
def graphDefineSvoCategory (im : IMap) (g : Graph) : Except PyErr Graph := do
  let ks := akeys g
  let g ← ks.foldlM detCat1 g
  let g ← ks.foldlM (detCat2 im) g
  let g ← ks.foldlM (detCat3 im) g
  ks.foldlM (detCat4 im) g

/-! ### `graph_add_var_entity_links` — the score-propagation pass -/

/-- The five structural link names of `variable_links`
(`first_order ++ second_order`), as a typed field selector. -/
inductive Link5 where
  | hasComponents | hasAttribute | isTypeOf | isDefinedBy | isWWNDefinedBy
  deriving DecidableEq, Repr

def Node.getLink (n : Node) : Link5 → Option (List String)
  | .hasComponents => n.hasComponents
  | .hasAttribute => n.hasAttribute
  | .isTypeOf => n.isTypeOf
  | .isDefinedBy => n.isDefinedBy
  | .isWWNDefinedBy => n.isWWNDefinedBy

/-- `matched_link = ['hasSVOVar', 'hasSVOEntity', 'hasWMIndicator']`. -/
inductive TypL where
  | svoVar | svoEntity | wmIndicator
  deriving DecidableEq, Repr

def Node.getScore (n : Node) : TypL → Option (List (PK × ℚ))
  | .svoVar => n.hasSVOVar
  | .svoEntity => n.hasSVOEntity
  | .wmIndicator => n.hasWMIndicator

def Node.setScore (n : Node) : TypL → Option (List (PK × ℚ)) → Node
  | .svoVar, v => { n with hasSVOVar := v }
  | .svoEntity, v => { n with hasSVOEntity := v }
  | .wmIndicator, v => { n with hasWMIndicator := v }

def firstOrderLinks : List Link5 := [.hasComponents, .hasAttribute, .isTypeOf]
def secondOrderLinks : List Link5 := [.isDefinedBy, .isWWNDefinedBy]
def allLinks5 : List Link5 := firstOrderLinks ++ secondOrderLinks
def matchedLinks : List TypL := [.svoVar, .svoEntity, .wmIndicator]

/-- Accumulate `new_val`: each linked term contributes
`factor * score / num_linked_terms` per key, summed over linked terms.
(This only reads the graph.) -/
def gavelAccum (im : IMap) (g : Graph) (factor : ℚ) (num : Nat)
    (linked_terms : List String) (tl : TypL) :
    Except PyErr (List (PK × ℚ)) :=
  linked_terms.foldlM (fun nv lterm =>
    if (akeys im).contains lterm then do
      let li := (alookup im lterm).getD ""
      let lnode ← pyGet g li
      match lnode.getScore tl with
      | none => pure nv
      | some entity => pure (entity.foldl (fun nv (kv : PK × ℚ) =>
          let cur := (alookup nv kv.1).getD 0
          aset nv kv.1 (cur + factor * kv.2 / (num : ℚ))) nv)
    else pure nv) []

/-- `self.graph[term][typ_link]` — a `KeyError` when the field is absent. -/
def getScoreOrErr (node : Node) (tl : TypL) : Except PyErr (List (PK × ℚ)) :=
  match node.getScore tl with
  | some s => .ok s
  | none => .error .keyError

/-- Write one accumulated value: only when it exceeds `0.05`; an existing
key keeps the max of old and new. -/
def gavelWrite (term : String) (tl : TypL) (g : Graph) (kv : PK × ℚ) :
    Except PyErr Graph :=
  if kv.2 > 1/20 then do
    let node ← pyGet g term
    let score ← getScoreOrErr node tl
    match alookup score kv.1 with
    | some old =>
      pure (aset g term (node.setScore tl (some (aset score kv.1 (pymax kv.2 old)))))
    | none =>
      pure (aset g term (node.setScore tl (some (aset score kv.1 kv.2))))
  else pure g

/-- `if not typ_link in self.graph[term].keys(): self.graph[term][typ_link] = {}` -/
def gavelEnsure (term : String) (tl : TypL) (g : Graph) (node : Node) : Graph :=
  if (node.getScore tl).isNone
  then aset g term (node.setScore tl (some [])) else g

/-- Handle one `typ_link` for one term: ensure the score field exists
(inserting `{}` when absent), accumulate, then write. -/
def gavelTyp (im : IMap) (factor : ℚ) (num : Nat) (linked_terms : List String)
    (term : String) (g : Graph) (tl : TypL) : Except PyErr Graph := do
  let node ← pyGet g term
  let g := gavelEnsure term tl g node
  let new_val ← gavelAccum im g factor num linked_terms tl
  new_val.foldlM (gavelWrite term tl) g

/-- Handle one link for one term (skipped when the term lacks the link). -/
def gavelTerm (im : IMap) (factor : ℚ) (link : Link5) (g : Graph)
    (term : String) : Except PyErr Graph := do
  let node ← pyGet g term
  match node.getLink link with
  | none => pure g
  | some linked_terms =>
    matchedLinks.foldlM (gavelTyp im factor linked_terms.length linked_terms term) g

/-- `SciVarKG.graph_add_var_entity_links()`: for each link type in order
(first-order factor 1, second-order factor 0.83) and each term, propagate
the linked terms' scores. -/
def graphAddVarEntityLinks (im : IMap) (g : Graph) : Except PyErr Graph :=
  let terms := akeys g
  allLinks5.foldlM (fun g link =>
    let factor : ℚ := if secondOrderLinks.contains link then 83/100 else 1
    terms.foldlM (gavelTerm im factor link) g) g

/-! ## Concrete scenarios

Closed inputs on which the claims are evaluated.  `W0` is the benign world:
every external lookup misses (empty WiktiWordNet table, empty ontology
result, a disambiguation page from Wikipedia, a parser that returns no
sentences), which the specification calls the expected steady state. -/

/-- `(key, value)`-projection of a score map lookup. -/
def scoreOf (g : Graph) (term : String) (tl : TypL) (k : PK) : Option ℚ :=
  ((alookup g term).bind (fun n => n.getScore tl)).bind (fun m => alookup m k)

/-- Rewrite one node of a graph in place (used only to state theorems). -/
def mapNode (g : Graph) (k : String) (f : Node → Node) : Graph :=
  match alookup g k with
  | some n => aset g k (f n)
  | none => g

/-- Node `t`'s score map for `tl` binds `k` to at least `v`. -/
def scoreLB (t : String) (tl : TypL) (k : PK) (v : ℚ) (g : Graph) : Prop :=
  ∃ v', scoreOf g t tl k = some v' ∧ v ≤ v'

/-- Node `t` exists and carries the score field `tl` (possibly empty). -/
def scorePresent (t : String) (tl : TypL) (g : Graph) : Prop :=
  ∃ nd, alookup g t = some nd ∧ (nd.getScore tl).isSome

/-- Node `t` exists and carries the structural link `l`. -/
def linkPresent (t : String) (l : Link5) (g : Graph) : Prop :=
  ∃ nd, alookup g t = some nd ∧ (nd.getLink l).isSome

def emptyWiki : WikiText :=
  { text := [], disambig := true, title := "", redirecttitle := "" }

/-- The benign world: every lookup misses. -/
def W0 : World :=
  { wwnCategory := fun _ => []
    svoRank := fun _ => []
    wiki := fun _ => emptyWiki
    hashFn := fun _ => 0
    parseParagraph := fun _ => []
    sentIsNsubj := fun _ _ => false
    docTermNG := fun _ _ => [] }

/-- The empty `SciVarKG` state. -/
def kg0 : KGState := {}

/-- C1: the tagged words of `"state of matter"` (both components are
reserved category names, so their nodes stay stubs). -/
def c1words : List Word :=
  [⟨"state", "NOUN", "state"⟩, ⟨"of", "ADP", "of"⟩, ⟨"matter", "NOUN", "matter"⟩]

/-- C1: the attribute record the parser produces for `"state of matter"`. -/
def c1attr : NGAttr :=
  (alookup (parseNounGroups c1words) "state of matter").getD (NGAttr.base [] [] "")

/-- C1: one call of `add_term_node`. -/
def c1_once : Except PyErr KGState := addTermNode W0 5 "state of matter" c1attr kg0

/-- C1: a second call with the same arguments. -/
def c1_twice : Except PyErr KGState :=
  c1_once.bind (addTermNode W0 5 "state of matter" c1attr)

/-- C2: the claim's tagged input. -/
def c2words : List Word :=
  [⟨"in", "ADP", "in"⟩, ⟨"terms", "NOUN", "terms"⟩,
   ⟨"of", "ADP", "of"⟩, ⟨"mass", "NOUN", "mass"⟩]

/-- C2: the same window placed in the interior of a cluster. -/
def c2interior : List Word :=
  [⟨"mass", "NOUN", "mass"⟩, ⟨"in", "ADP", "in"⟩, ⟨"terms", "NOUN", "terms"⟩,
   ⟨"of", "ADP", "of"⟩, ⟨"volume", "NOUN", "volume"⟩]

/-- C3: canonical node A with ontology-variable score 0.4 for key K. -/
def c3A : Node := { type := "noun", hasSVOVar := some [(.s "k", 2/5)] }

/-- C3: node B, a `has_synonym` reference to A, score 0.6 for K. -/
def c3B : Node :=
  { type := "noun", hasSynonym := some ["aa"], hasSVOVar := some [(.s "k", 3/5)] }

def c3St : KGState :=
  { graph := [("aa", c3A), ("bb", c3B)], index_map := [("aa", "aa"), ("bb", "bb")] }

/-- C4: canonical node with two `isDefinedBy` targets. -/
def c4A : Node := { type := "noun", isDefinedBy := some ["x", "y"] }

/-- C4: duplicate node whose single `isDefinedBy` target is already present
on the canonical node. -/
def c4B : Node :=
  { type := "noun", hasSynonym := some ["aa"], isDefinedBy := some ["x"] }

def c4St : KGState :=
  { graph := [("aa", c4A), ("bb", c4B)], index_map := [("aa", "aa"), ("bb", "bb")] }

/-- C5: a built graph in which `"density of water"` is an
adposition-compound (`extract_type` labels it `'compound'`) whose
components resolve to Property and Phenomenon. -/
def c5g : Graph :=
  [("density", { type := "noun", hasWWNCategory := some ["Property"] }),
   ("water", { type := "noun", hasWWNCategory := some ["Phenomenon"] }),
   ("density of water",
    { type := "compound", hasComponents := some ["density", "water"] })]

def c5im : IMap :=
  [("density", "density"), ("water", "water"),
   ("density of water", "density of water")]

/-- C7/C10: a child node holding `{K: 0.8}`. -/
def childN : Node := { type := "noun", hasSVOVar := some [(.s "k", 4/5)] }

def c7im : IMap := [("p", "p"), ("c", "c")]

/-- C7(a): one first-order component edge to the child. -/
def c7a : Graph :=
  [("p", { type := "compound", hasComponents := some ["c"] }), ("c", childN)]

/-- C7(b): the same child linked via a second-order edge. -/
def c7b : Graph :=
  [("p", { type := "compound", isDefinedBy := some ["c"] }), ("c", childN)]

/-- C7(c): a child score of exactly 0.05 (not above the threshold). -/
def c7c : Graph :=
  [("p", { type := "compound", hasComponents := some ["c"] }),
   ("c", { type := "noun", hasSVOVar := some [(.s "k", 1/20)] })]

/-- C7(d): the parent already holds 0.9 > 0.8 for K. -/
def c7d : Graph :=
  [("p", { type := "compound", hasComponents := some ["c"],
           hasSVOVar := some [(.s "k", 9/10)] }), ("c", childN)]

/-- C7(e): the parent already holds 0.3 < 0.8 for K. -/
def c7e : Graph :=
  [("p", { type := "compound", hasComponents := some ["c"],
           hasSVOVar := some [(.s "k", 3/10)] }), ("c", childN)]

/-- C7(f): two equally-weighted siblings holding 0.8 and 0.6. -/
def c7f : Graph :=
  [("p", { type := "compound", hasComponents := some ["c", "d"] }),
   ("c", childN), ("d", { type := "noun", hasSVOVar := some [(.s "k", 3/5)] })]

def c7fim : IMap := [("p", "p"), ("c", "c"), ("d", "d")]

/-- C7 witness: the graph `graph_add_var_entity_links` produces from
`c7d` — the existing 0.9 survives the max-merge. -/
def c7dres : Graph :=
  [("p", { type := "compound", hasComponents := some ["c"],
           hasSVOVar := some [(.s "k", 9/10)], hasSVOEntity := some [],
           hasWMIndicator := some [] }), ("c", childN)]

/-- C10 witness: the graph `graph_add_var_entity_links` produces from
`c7a` — `p` gains `{K: 0.8}` plus empty `hasSVOEntity`/`hasWMIndicator`
maps, `c` is untouched. -/
def c10res : Graph :=
  [("p", { type := "compound", hasComponents := some ["c"],
           hasSVOVar := some [(.s "k", 4/5)], hasSVOEntity := some [],
           hasWMIndicator := some [] }), ("c", childN)]

/-- C9: one parsed sentence in which the component `"water"` occurs in two
compounds (`"rate of water"` is flushed first by the reverse scan). -/
def c9sentence : List Word :=
  [⟨"density", "NOUN", "density"⟩, ⟨"of", "ADP", "of"⟩,
   ⟨"water", "NOUN", "water"⟩, ⟨"dissolves", "VERB", "dissolve"⟩,
   ⟨"rate", "NOUN", "rate"⟩, ⟨"of", "ADP", "of"⟩, ⟨"water", "NOUN", "water"⟩]

/-- C9: the benign world whose parser returns that sentence. -/
def W9 : World := { W0 with parseParagraph := fun _ => [c9sentence] }

/-! ## Claim theorems -/

/-- C1, counterexample.  Calling `add_term_node` twice in succession with
the same term and attributes does NOT leave the graph identical to one
call: the second call appends the whole components list to
`hasComponents` again (the source `extend`s without deduplication), so the
edge list gains duplicate entries. -/
theorem C1_counterexample :
    (c1_twice.map fun s => (alookup s.graph "state of matter").map Node.hasComponents)
      = .ok (some (some ["state", "matter", "state", "matter"])) ∧
    (c1_once.map fun s => (alookup s.graph "state of matter").map Node.hasComponents)
      = .ok (some (some ["state", "matter"])) ∧
    (["state", "matter", "state", "matter"] : List String) ≠ ["state", "matter"] := by
  refine ⟨by rfl, by rfl, by decide⟩

/-- C1, amended.  Calling `add_term_node` twice with the same arguments
never clears or overwrites an existing edge, but it is not idempotent: the
second call re-appends the full components list to the term's
`hasComponents` (duplicating every entry) and repeats the external
lookups; every other part of the state is left exactly as after one
call. -/
theorem C1_amended :
    c1_twice = c1_once.map (fun s =>
      { s with
        graph := mapNode s.graph "state of matter"
          (fun n => { n with hasComponents := n.hasComponents.map (· ++ ["state", "matter"]) })
        callLog := s.callLog ++
          [.wwn "state of matter", .wwn "state of matter", .wiki "state of matter"] }) := by
  rfl

/-- C2, counterexample.  Segmenting and decomposing
`[("in",ADP), ("terms",NOUN), ("of",ADP), ("mass",NOUN)]` emits the cluster
`"terms of mass"` whose components are `"terms"` and `"mass"`: the bare
word `"terms"` DOES survive as a component, contradicting the claim that
the adposition-noun-adposition window acts as a single separator here. -/
theorem C2_counterexample :
    (parseNounGroups c2words).map Prod.fst = ["terms of mass"] ∧
    (parseNounGroups c2words).map (fun p => akeys p.2.components)
      = [["terms", "mass"]] := by
  refine ⟨by rfl, by rfl⟩

/-- C2, amended.  On `[in, terms, of, mass]` the leading adposition is
stripped first, so the surviving cluster is `"terms of mass"` and its
decomposition emits the components `"terms"` and `"mass"` — the
ADPOSITION,NOUN,ADPOSITION separator rule only applies when the window is
interior to the stripped cluster, as in `"mass in terms of volume"`, where
the interior noun `"terms"` is indeed dropped. -/
theorem C2_amended :
    (parseNounGroups c2words).map (fun p => (p.1, akeys p.2.components))
      = [("terms of mass", ["terms", "mass"])] ∧
    (parseNounGroups c2interior).map (fun p => (p.1, akeys p.2.components))
      = [("mass in terms of volume", ["mass", "volume"])] := by
  refine ⟨by rfl, by rfl⟩

/-- C3.  After `update_synonyms` runs on a graph where node `"bb"` carries
a `hasSynonym` reference to the existing node `"aa"`, with scores 0.4
(on `"aa"`) and 0.6 (on `"bb"`) for the same key K: `"aa"` holds
`max(0.4, 0.6) = 0.6` for K, `"bb"` is gone from the graph, and the
synonym index maps `"bb"` to `"aa"`. -/
theorem C3_synonym_merge :
    ((updateSynonyms c3St).map fun s =>
      (scoreOf s.graph "aa" .svoVar (.s "k"),
       (alookup s.graph "bb").isSome,
       alookup s.index_map "bb"))
      = .ok (some (3/5 : ℚ), false, some "aa") ∧
    (3/5 : ℚ) = max (2/5) (3/5) := by
  refine ⟨by with_unfolding_all rfl, by norm_num⟩

/-- C4.  Merging duplicate `"bb"` (isDefinedBy = `["x"]`) into canonical
`"aa"` (isDefinedBy = `["x", "y"]`) leaves `"aa"` with `["x"]`: the value
`"y"` that was already attached to the canonical node is LOST, because the
transfer's `else` branch overwrites the whole list with `[v]` whenever the
transferred value is already present. -/
theorem C4_evaluation :
    ((updateSynonyms c4St).map fun s => (alookup s.graph "aa").map Node.isDefinedBy)
      = .ok (some (some ["x"])) ∧
    (["x"] : List String) ≠ ["x", "y"] := by
  refine ⟨by rfl, by decide⟩

/-- `extract_type` never labels a noun group `'adp'`: its `typ` is always
one of the six labels `compound`, `modnoungrp`, `modnoun`, `adj`,
`noungrp`, `noun`. -/
theorem extractType_typ_mem (n : String) (p l : List String) :
    (extractType n p l).2.2 ∈
      ["compound", "modnoungrp", "modnoun", "adj", "noungrp", "noun"] := by
  unfold extractType
  dsimp only
  repeat' split
  all_goals simp

/-- C5.  In the category-inference pass, the adposition-compound
`"density of water"` (components resolved to Property and Phenomenon,
name containing `" of "`) is left with the default category Phenomenon,
not Variable: the pass's compound branch tests `type == 'adp'`, a label
`extract_type` never produces (it labels such nodes `'compound'`), so the
branch is dead and no combination rule ever fires. -/
theorem C5_evaluation :
    ((graphDefineSvoCategory c5im c5g).map fun g =>
      ((alookup g "density").bind Node.detSVOCategory,
       (alookup g "water").bind Node.detSVOCategory,
       (alookup g "density of water").bind Node.detSVOCategory))
      = .ok (some "Property", some "Phenomenon", some "Phenomenon") ∧
    (some "Phenomenon" : Option String) ≠ some "Variable" ∧
    (∀ n : String, ∀ p l : List String, (extractType n p l).2.2 ≠ "adp") := by
  refine ⟨by rfl, by decide, fun n p l h => ?_⟩
  have := extractType_typ_mem n p l
  rw [h] at this
  simp at this

/-! ### Association-list lemmas -/

theorem alookup_aset_self {κ α : Type} [DecidableEq κ] (l : List (κ × α))
    (k : κ) (v : α) : alookup (aset l k v) k = some v := by
  induction l with
  | nil => simp [aset, alookup]
  | cons h t ih =>
    by_cases hk : h.1 = k
    · simp only [aset]
      rw [if_pos hk]
      simp [alookup, hk]
    · simp only [aset]
      rw [if_neg hk]
      simp [alookup, hk, ih]

theorem alookup_aset_ne {κ α : Type} [DecidableEq κ] (l : List (κ × α))
    (k k' : κ) (v : α) (h : k' ≠ k) :
    alookup (aset l k v) k' = alookup l k' := by
  induction l with
  | nil =>
    simp only [aset, alookup]
    rw [if_neg (fun hh => h hh.symm)]
  | cons hd t ih =>
    by_cases hk : hd.1 = k
    · simp only [aset]
      rw [if_pos hk]
      simp only [alookup]
      rw [if_neg (hk ▸ fun hh => h hh.symm), if_neg (hk ▸ fun hh => h hh.symm)]
    · simp only [aset]
      rw [if_neg hk]
      simp only [alookup]
      by_cases he : hd.1 = k'
      · rw [if_pos he, if_pos he]
      · rw [if_neg he, if_neg he, ih]

/-! ### C6 helper lemmas about the stub half of `add_term_node` -/

theorem stubState_callLog (nl : String) (attr : NGAttr) (st : KGState) :
    (stubState nl attr st).callLog = st.callLog := by
  unfold stubState addIndexMap
  split
  · rfl
  · dsimp only
    split <;> rfl

theorem stubState_svoIndex (nl : String) (attr : NGAttr) (st : KGState) :
    (stubState nl attr st).svo_index_map = st.svo_index_map := by
  unfold stubState addIndexMap
  split
  · rfl
  · dsimp only
    split <;> rfl

theorem stubState_graph_ne (nl : String) (attr : NGAttr) (st : KGState)
    (t : String) (h : t ≠ nl) :
    alookup (stubState nl attr st).graph t = alookup st.graph t := by
  unfold stubState addIndexMap
  split
  · rfl
  · dsimp only
    split <;> exact alookup_aset_ne _ _ _ _ h

/-- C6.  A term equal to a reserved category name (or whose joined
lower-cased lemma equals one) gets at most a stub node from
`add_term_node`: the result state is exactly the stub-creation half of the
function — no decomposition, no category/ontology annotation, no external
fetch (the call log is unchanged), no other node touched. -/
theorem C6_reserved_terminal (w : World) (fuel : Nat) (name : String)
    (attr : NGAttr) (st : KGState)
    (h : (categoryNames.contains (strLower name)
          || categoryNames.contains (strLower (strJoinSpace attr.lemma_seq)))
         = true) :
    addTermNode w (fuel + 1) name attr st
      = .ok (stubState (strLower name) attr st) ∧
    (stubState (strLower name) attr st).callLog = st.callLog ∧
    (stubState (strLower name) attr st).svo_index_map = st.svo_index_map ∧
    ∀ t, t ≠ strLower name →
      alookup (stubState (strLower name) attr st).graph t
        = alookup st.graph t := by
  refine ⟨?_, stubState_callLog _ _ _, stubState_svoIndex _ _ _,
    fun t ht => stubState_graph_ne _ _ _ _ ht⟩
  have hcond : (!(categoryNames.contains (strLower name))
      && !(categoryNames.contains (strLower (strJoinSpace attr.lemma_seq))))
      = false := by
    rw [← Bool.not_or, h]
    rfl
  unfold addTermNode
  simp only [hcond]
  rfl

/-- C6 witness: the reserved term `"property"`. -/
theorem C6_witness :
    addTermNode W0 1 "property" (NGAttr.base ["NOUN"] ["property"] "noun") kg0
      = .ok (stubState (strLower "property")
          (NGAttr.base ["NOUN"] ["property"] "noun") kg0) :=
  (C6_reserved_terminal W0 0 "property"
    (NGAttr.base ["NOUN"] ["property"] "noun") kg0 (by decide)).1

/-- C8.  `add_concept` clamps any depth above 3 down to 3 (so depth 10
behaves identically to depth 3), and a call with depth 0 or with an empty
term returns the state unchanged. -/
theorem C8_depth_contract :
    (∀ (w : World) (fuel : Nat) (var : String) (st : KGState) (d : Nat),
      d > 3 → addConcept w fuel var d st = addConcept w fuel var 3 st) ∧
    (∀ (w : World) (fuel : Nat) (var : String) (st : KGState),
      addConcept w fuel var 0 st = .ok st) ∧
    (∀ (w : World) (fuel : Nat) (d : Nat) (st : KGState),
      addConcept w fuel "" d st = .ok st) := by
  refine ⟨fun w fuel var st d hd => ?_, fun w fuel var st => ?_,
    fun w fuel d st => ?_⟩
  · unfold addConcept
    rw [if_pos hd]
    rfl
  · rfl
  · unfold addConcept
    generalize (if d > 3 then 3 else d) = k
    cases k <;> rfl

/-- C8 witness: depth 10 equals depth 3 on a concrete call. -/
theorem C8_witness :
    addConcept W0 1 "soil moisture" 10 kg0
      = addConcept W0 1 "soil moisture" 3 kg0 :=
  C8_depth_contract.1 W0 1 "soil moisture" kg0 10 (by decide)

/-- C9.  One `add_concept` build with every external lookup missing: the
parsed sentence contains the compounds `"rate of water"` and
`"density of water"`, which share the component `"water"`.  When
`add_components` re-wires `"water"`'s `isComponentOf` for the second
compound, the append branch reads the undefined global name `graph` and
the whole build aborts with a `NameError` — refuting the claim that no
exception escapes a component boundary during a build. -/
theorem C9_evaluation :
    addConcept W9 6 "density of water dissolves rate of water" 1 kg0
      = .error .nameError := by
  rfl

/-! ### Generic machinery for the score-propagation proofs -/

theorem bind_ok_iff {α β : Type} (x : Except PyErr α) (f : α → Except PyErr β)
    (c : β) : (x >>= f) = .ok c ↔ ∃ b, x = .ok b ∧ f b = .ok c := by
  cases x with
  | error e => simp [Bind.bind, Except.bind]
  | ok a => simp [Bind.bind, Except.bind]

theorem foldlM_inv {α β : Type} {P : β → Prop} {f : β → α → Except PyErr β}
    (hf : ∀ b a b', P b → f b a = .ok b' → P b') :
    ∀ (l : List α) (b b' : β), P b → List.foldlM f b l = .ok b' → P b'
  | [], b, b', hP, h => by
    rw [List.foldlM_nil] at h
    cases h
    exact hP
  | a :: l, b, b', hP, h => by
    rw [List.foldlM_cons] at h
    rcases (bind_ok_iff _ _ _).1 h with ⟨b1, h1, h2⟩
    exact foldlM_inv hf l b1 b' (hf b a b1 hP h1) h2

theorem pyGet_ok {κ α : Type} [DecidableEq κ] {l : List (κ × α)} {k : κ}
    {v : α} (h : pyGet l k = .ok v) : alookup l k = some v := by
  unfold pyGet at h
  split at h
  · cases h
    assumption
  · cases h

theorem getScore_setScore_same (n : Node) (tl : TypL)
    (v : Option (List (PK × ℚ))) : (n.setScore tl v).getScore tl = v := by
  cases tl <;> rfl

theorem getScore_setScore_ne (n : Node) (tl tl' : TypL)
    (v : Option (List (PK × ℚ))) (h : tl' ≠ tl) :
    (n.setScore tl' v).getScore tl = n.getScore tl := by
  cases tl <;> cases tl' <;> first | rfl | exact absurd rfl h

theorem getLink_setScore (n : Node) (tl : TypL) (v : Option (List (PK × ℚ)))
    (l : Link5) : (n.setScore tl v).getLink l = n.getLink l := by
  cases tl <;> cases l <;> rfl

theorem le_pymax_right (a b : ℚ) : b ≤ pymax a b := by
  unfold pymax
  split
  · assumption
  · exact le_refl b

theorem alookup_mem_keys {κ α : Type} [DecidableEq κ] (l : List (κ × α))
    (k : κ) (v : α) (h : alookup l k = some v) : k ∈ akeys l := by
  induction l with
  | nil => simp [alookup] at h
  | cons hd t ih =>
    simp only [alookup] at h
    by_cases he : hd.1 = k
    · simp [akeys, he.symm]
    · rw [if_neg he] at h
      simp only [akeys, List.map_cons, List.mem_cons]
      exact Or.inr (ih h)

theorem mem_allLinks5 (l : Link5) : l ∈ allLinks5 := by
  cases l <;> decide

/-! ### `scoreLB` is preserved by every step of the score-propagation pass
(the pass never lowers an existing score) -/

theorem scoreLB_aset_setScore {t term : String} {tl tl' : TypL} {k kk : PK}
    {v x : ℚ} {g : Graph} {node : Node} {score : List (PK × ℚ)}
    (hnode : alookup g term = some node)
    (hscore : node.getScore tl' = some score)
    (hP : scoreLB t tl k v g)
    (hx : ∀ old, alookup score kk = some old → old ≤ x) :
    scoreLB t tl k v (aset g term (node.setScore tl' (some (aset score kk x)))) := by
  rcases hP with ⟨v', hv', hle⟩
  by_cases ht : t = term
  · subst ht
    by_cases htl : tl = tl'
    · subst htl
      have hv'' : alookup score k = some v' := by
        simpa [scoreOf, hnode, hscore] using hv'
      by_cases hk : kk = k
      · subst hk
        refine ⟨x, ?_, le_trans hle (hx v' hv'')⟩
        simp [scoreOf, alookup_aset_self, getScore_setScore_same]
      · refine ⟨v', ?_, hle⟩
        have hlk : alookup (aset score kk x) k = some v' := by
          rw [alookup_aset_ne _ _ _ _ (fun hh => hk hh.symm)]
          exact hv''
        simp [scoreOf, alookup_aset_self, getScore_setScore_same, hlk]
    · refine ⟨v', ?_, hle⟩
      have htl' : tl' ≠ tl := fun hh => htl hh.symm
      have hbase : ((node.getScore tl).bind fun m => alookup m k) = some v' := by
        simpa [scoreOf, hnode] using hv'
      simp [scoreOf, alookup_aset_self, getScore_setScore_ne _ _ _ _ htl', hbase]
  · refine ⟨v', ?_, hle⟩
    simpa [scoreOf, alookup_aset_ne _ _ _ _ ht] using hv'

theorem gavelWrite_scoreLB {t : String} {tl : TypL} {k : PK} {v : ℚ}
    {term : String} {tl' : TypL} {g g₂ : Graph} {kv : PK × ℚ}
    (hP : scoreLB t tl k v g) (h : gavelWrite term tl' g kv = .ok g₂) :
    scoreLB t tl k v g₂ := by
  unfold gavelWrite at h
  split at h
  · rcases (bind_ok_iff _ _ _).1 h with ⟨node, hn, h⟩
    have hnode := pyGet_ok hn
    rcases (bind_ok_iff _ _ _).1 h with ⟨score, hsc, h⟩
    have hscore : node.getScore tl' = some score := by
      unfold getScoreOrErr at hsc
      revert hsc
      split
      · intro hh
        cases hh
        assumption
      · intro hh
        cases hh
    split at h
    next old heq =>
      cases h
      refine scoreLB_aset_setScore hnode hscore hP ?_
      intro o ho
      rw [heq] at ho
      cases ho
      exact le_pymax_right _ _
    next heq =>
      cases h
      refine scoreLB_aset_setScore hnode hscore hP ?_
      intro o ho
      rw [heq] at ho
      cases ho
  · cases h
    exact hP

theorem gavelEnsure_scoreLB {t term : String} {tl tl' : TypL} {k : PK} {v : ℚ}
    {g : Graph} {node : Node} (hnode : alookup g term = some node)
    (hP : scoreLB t tl k v g) :
    scoreLB t tl k v (gavelEnsure term tl' g node) := by
  unfold gavelEnsure
  split
  · rcases hP with ⟨v', hv', hle⟩
    by_cases ht : t = term
    · subst ht
      by_cases htl : tl = tl'
      · subst htl
        exfalso
        have hnone : node.getScore tl = none := by
          rwa [Option.isNone_iff_eq_none] at *

        simp [scoreOf, hnode, hnone] at hv'
      · refine ⟨v', ?_, hle⟩
        have htl' : tl' ≠ tl := fun hh => htl hh.symm
        have hbase : ((node.getScore tl).bind fun m => alookup m k) = some v' := by
          simpa [scoreOf, hnode] using hv'
        simp [scoreOf, alookup_aset_self, getScore_setScore_ne _ _ _ _ htl', hbase]
    · exact ⟨v', by simpa [scoreOf, alookup_aset_ne _ _ _ _ ht] using hv', hle⟩
  · exact hP

theorem gavelTyp_scoreLB {t : String} {tl : TypL} {k : PK} {v : ℚ}
    {im : IMap} {factor : ℚ} {num : Nat} {lts : List String} {term : String}
    {g g₂ : Graph} {tl' : TypL}
    (hP : scoreLB t tl k v g)
    (h : gavelTyp im factor num lts term g tl' = .ok g₂) :
    scoreLB t tl k v g₂ := by
  unfold gavelTyp at h
  rcases (bind_ok_iff _ _ _).1 h with ⟨node, hn, h⟩
  dsimp only at h
  rcases (bind_ok_iff _ _ _).1 h with ⟨nv, _hacc, h⟩
  exact foldlM_inv (fun b a b' hb hs => gavelWrite_scoreLB hb hs) nv _ _
    (gavelEnsure_scoreLB (pyGet_ok hn) hP) h

theorem gavelTerm_scoreLB {t : String} {tl : TypL} {k : PK} {v : ℚ}
    {im : IMap} {factor : ℚ} {link : Link5} {g g₂ : Graph} {term : String}
    (hP : scoreLB t tl k v g)
    (h : gavelTerm im factor link g term = .ok g₂) :
    scoreLB t tl k v g₂ := by
  unfold gavelTerm at h
  rcases (bind_ok_iff _ _ _).1 h with ⟨node, _hn, h⟩
  split at h
  · cases h
    exact hP
  · exact foldlM_inv (fun b a b' hb hs => gavelTyp_scoreLB hb hs) _ _ _ hP h

theorem gavelPass_scoreLB {im : IMap} {g g' : Graph} {t : String} {tl : TypL}
    {k : PK} {v : ℚ}
    (h : graphAddVarEntityLinks im g = .ok g') (hP : scoreLB t tl k v g) :
    scoreLB t tl k v g' := by
  unfold graphAddVarEntityLinks at h
  refine foldlM_inv ?_ allLinks5 g g' hP h
  intro b link b' hb hstep
  dsimp only at hstep
  exact foldlM_inv (fun b2 t2 b2' hb2 hs2 => gavelTerm_scoreLB hb2 hs2)
    _ _ _ hb hstep

/-- C7.  The score-propagation pass: (1) a single first-order component
edge to a child holding `{K: 0.8}` writes `0.8` into the parent's map
(decay 1.0); (2) the same child via a second-order edge contributes
`0.8 × 0.83 = 0.664`; (3) each linked node's contribution is divided by
the edge count and contributions are summed (`(0.8 + 0.6)/2 = 0.7`);
(4) a summed value at or below 0.05 is not written; (5)/(6) an existing
key becomes the max of old and new; and (7) in general the pass never
lowers an existing score of any node. -/
theorem C7_score_propagation :
    (((graphAddVarEntityLinks c7im c7a).map fun g =>
        (alookup g "p").bind Node.hasSVOVar)
      = .ok (some [(.s "k", 4/5)]) ∧
     ((graphAddVarEntityLinks c7im c7b).map fun g =>
        (alookup g "p").bind Node.hasSVOVar)
      = .ok (some [(.s "k", 83/125)]) ∧
     (83/125 : ℚ) = (4/5) * (83/100) ∧
     ((graphAddVarEntityLinks c7fim c7f).map fun g =>
        (alookup g "p").bind Node.hasSVOVar)
      = .ok (some [(.s "k", 7/10)]) ∧
     (7/10 : ℚ) = 1 * (4/5) / 2 + 1 * (3/5) / 2 ∧
     ((graphAddVarEntityLinks c7im c7c).map fun g =>
        (alookup g "p").bind Node.hasSVOVar)
      = .ok (some []) ∧
     ((graphAddVarEntityLinks c7im c7d).map fun g =>
        (alookup g "p").bind Node.hasSVOVar)
      = .ok (some [(.s "k", 9/10)]) ∧
     ((graphAddVarEntityLinks c7im c7e).map fun g =>
        (alookup g "p").bind Node.hasSVOVar)
      = .ok (some [(.s "k", 4/5)])) ∧
    (∀ (im : IMap) (g g' : Graph) (t : String) (tl : TypL) (k : PK) (v : ℚ),
      graphAddVarEntityLinks im g = .ok g' → scoreLB t tl k v g →
      scoreLB t tl k v g') := by
  refine ⟨⟨?_, ?_, by norm_num, ?_, by norm_num, ?_, ?_, ?_⟩,
    fun im g g' t tl k v h hP => gavelPass_scoreLB h hP⟩
  all_goals with_unfolding_all rfl

/-- C7 witness: the general never-lower clause applied to the concrete
graph `c7d`, whose parent already holds 0.9. -/
theorem C7_witness :
    scoreLB "p" TypL.svoVar (PK.s "k") (9/10) c7dres :=
  C7_score_propagation.2 c7im c7d c7dres "p" TypL.svoVar (PK.s "k") (9/10)
    (by with_unfolding_all rfl)
    ⟨9/10, by with_unfolding_all rfl, le_refl _⟩

/-! ### `scorePresent` / `linkPresent` bookkeeping for the frame effect of
the score-propagation pass (C10) -/

theorem scorePresent_aset_setScore {t term : String} {tl tl' : TypL}
    {g : Graph} {node : Node} {v : List (PK × ℚ)}
    (hnode : alookup g term = some node) (hP : scorePresent t tl g) :
    scorePresent t tl (aset g term (node.setScore tl' (some v))) := by
  rcases hP with ⟨nd, hnd, hs⟩
  by_cases ht : t = term
  · subst ht
    have hnn : nd = node := Option.some.inj (hnd.symm.trans hnode)
    refine ⟨node.setScore tl' (some v), alookup_aset_self _ _ _, ?_⟩
    by_cases htl : tl = tl'
    · subst htl
      rw [getScore_setScore_same]
      rfl
    · rw [getScore_setScore_ne _ _ _ _ (fun hh => htl hh.symm), ← hnn]
      exact hs
  · exact ⟨nd, by rw [alookup_aset_ne _ _ _ _ ht]; exact hnd, hs⟩

theorem linkPresent_aset_setScore {t term : String} {l : Link5} {tl' : TypL}
    {g : Graph} {node : Node} {v : Option (List (PK × ℚ))}
    (hnode : alookup g term = some node) (hP : linkPresent t l g) :
    linkPresent t l (aset g term (node.setScore tl' v)) := by
  rcases hP with ⟨nd, hnd, hs⟩
  by_cases ht : t = term
  · subst ht
    have hnn : nd = node := Option.some.inj (hnd.symm.trans hnode)
    refine ⟨node.setScore tl' v, alookup_aset_self _ _ _, ?_⟩
    rw [getLink_setScore, ← hnn]
    exact hs
  · exact ⟨nd, by rw [alookup_aset_ne _ _ _ _ ht]; exact hnd, hs⟩

theorem gavelWrite_present {t : String} {tl : TypL} {term : String} {tl' : TypL}
    {g g₂ : Graph} {kv : PK × ℚ}
    (hP : scorePresent t tl g) (h : gavelWrite term tl' g kv = .ok g₂) :
    scorePresent t tl g₂ := by
  unfold gavelWrite at h
  split at h
  · rcases (bind_ok_iff _ _ _).1 h with ⟨node, hn, h⟩
    have hnode := pyGet_ok hn
    rcases (bind_ok_iff _ _ _).1 h with ⟨score, _hsc, h⟩
    split at h
    next old heq =>
      cases h
      exact scorePresent_aset_setScore hnode hP
    next heq =>
      cases h
      exact scorePresent_aset_setScore hnode hP
  · cases h
    exact hP

theorem gavelWrite_link {t : String} {l : Link5} {term : String} {tl' : TypL}
    {g g₂ : Graph} {kv : PK × ℚ}
    (hP : linkPresent t l g) (h : gavelWrite term tl' g kv = .ok g₂) :
    linkPresent t l g₂ := by
  unfold gavelWrite at h
  split at h
  · rcases (bind_ok_iff _ _ _).1 h with ⟨node, hn, h⟩
    have hnode := pyGet_ok hn
    rcases (bind_ok_iff _ _ _).1 h with ⟨score, _hsc, h⟩
    split at h
    next old heq =>
      cases h
      exact linkPresent_aset_setScore hnode hP
    next heq =>
      cases h
      exact linkPresent_aset_setScore hnode hP
  · cases h
    exact hP

theorem gavelEnsure_present {t term : String} {tl tl' : TypL}
    {g : Graph} {node : Node} (hnode : alookup g term = some node)
    (hP : scorePresent t tl g) :
    scorePresent t tl (gavelEnsure term tl' g node) := by
  unfold gavelEnsure
  split
  · exact scorePresent_aset_setScore hnode hP
  · exact hP

theorem gavelEnsure_link {t term : String} {l : Link5} {tl' : TypL}
    {g : Graph} {node : Node} (hnode : alookup g term = some node)
    (hP : linkPresent t l g) :
    linkPresent t l (gavelEnsure term tl' g node) := by
  unfold gavelEnsure
  split
  · exact linkPresent_aset_setScore hnode hP
  · exact hP

theorem gavelEnsure_self {term : String} {tl' : TypL} {g : Graph} {node : Node}
    (hnode : alookup g term = some node) :
    scorePresent term tl' (gavelEnsure term tl' g node) := by
  unfold gavelEnsure
  split
  · refine ⟨node.setScore tl' (some []), alookup_aset_self _ _ _, ?_⟩
    rw [getScore_setScore_same]
    rfl
  next hsome =>
    refine ⟨node, hnode, ?_⟩
    cases hh : node.getScore tl' with
    | none => exact absurd (by rw [hh]; rfl) hsome
    | some s => rfl

theorem gavelTyp_present {t : String} {tl : TypL} {im : IMap} {factor : ℚ}
    {num : Nat} {lts : List String} {term : String} {g g₂ : Graph} {tl' : TypL}
    (hP : scorePresent t tl g)
    (h : gavelTyp im factor num lts term g tl' = .ok g₂) :
    scorePresent t tl g₂ := by
  unfold gavelTyp at h
  rcases (bind_ok_iff _ _ _).1 h with ⟨node, hn, h⟩
  dsimp only at h
  rcases (bind_ok_iff _ _ _).1 h with ⟨nv, _hacc, h⟩
  exact foldlM_inv (fun b a b' hb hs => gavelWrite_present hb hs) nv _ _
    (gavelEnsure_present (pyGet_ok hn) hP) h

theorem gavelTyp_link {t : String} {l : Link5} {im : IMap} {factor : ℚ}
    {num : Nat} {lts : List String} {term : String} {g g₂ : Graph} {tl' : TypL}
    (hP : linkPresent t l g)
    (h : gavelTyp im factor num lts term g tl' = .ok g₂) :
    linkPresent t l g₂ := by
  unfold gavelTyp at h
  rcases (bind_ok_iff _ _ _).1 h with ⟨node, hn, h⟩
  dsimp only at h
  rcases (bind_ok_iff _ _ _).1 h with ⟨nv, _hacc, h⟩
  exact foldlM_inv (fun b a b' hb hs => gavelWrite_link hb hs) nv _ _
    (gavelEnsure_link (pyGet_ok hn) hP) h

theorem gavelTyp_ensures {im : IMap} {factor : ℚ} {num : Nat}
    {lts : List String} {term : String} {g g₂ : Graph} {tl' : TypL}
    (h : gavelTyp im factor num lts term g tl' = .ok g₂) :
    scorePresent term tl' g₂ := by
  unfold gavelTyp at h
  rcases (bind_ok_iff _ _ _).1 h with ⟨node, hn, h⟩
  dsimp only at h
  rcases (bind_ok_iff _ _ _).1 h with ⟨nv, _hacc, h⟩
  exact foldlM_inv (fun b a b' hb hs => gavelWrite_present hb hs) nv _ _
    (gavelEnsure_self (pyGet_ok hn)) h

theorem gavelTerm_present {t : String} {tl : TypL} {im : IMap} {factor : ℚ}
    {link : Link5} {g g₂ : Graph} {term : String}
    (hP : scorePresent t tl g)
    (h : gavelTerm im factor link g term = .ok g₂) :
    scorePresent t tl g₂ := by
  unfold gavelTerm at h
  rcases (bind_ok_iff _ _ _).1 h with ⟨node, _hn, h⟩
  split at h
  · cases h
    exact hP
  · exact foldlM_inv (fun b a b' hb hs => gavelTyp_present hb hs) _ _ _ hP h

theorem gavelTerm_link {t : String} {l : Link5} {im : IMap} {factor : ℚ}
    {link : Link5} {g g₂ : Graph} {term : String}
    (hP : linkPresent t l g)
    (h : gavelTerm im factor link g term = .ok g₂) :
    linkPresent t l g₂ := by
  unfold gavelTerm at h
  rcases (bind_ok_iff _ _ _).1 h with ⟨node, _hn, h⟩
  split at h
  · cases h
    exact hP
  · exact foldlM_inv (fun b a b' hb hs => gavelTyp_link hb hs) _ _ _ hP h

theorem gavelTerm_ensures {im : IMap} {factor : ℚ} {link : Link5}
    {g g₂ : Graph} {term : String} {node : Node}
    (hn : alookup g term = some node) (hl : (node.getLink link).isSome)
    (h : gavelTerm im factor link g term = .ok g₂) :
    ∀ tl, scorePresent term tl g₂ := by
  unfold gavelTerm at h
  rcases (bind_ok_iff _ _ _).1 h with ⟨node', hn', h⟩
  have hnn : node' = node := Option.some.inj ((pyGet_ok hn').symm.trans hn)
  subst hnn
  split at h
  next heq =>
    rw [heq] at hl
    simp at hl
  next lts heq =>
    unfold matchedLinks at h
    rw [List.foldlM_cons] at h
    rcases (bind_ok_iff _ _ _).1 h with ⟨g1, h1, h⟩
    rw [List.foldlM_cons] at h
    rcases (bind_ok_iff _ _ _).1 h with ⟨g2, h2, h⟩
    rw [List.foldlM_cons] at h
    rcases (bind_ok_iff _ _ _).1 h with ⟨g3, h3, h⟩
    rw [List.foldlM_nil] at h
    cases h
    intro tl
    cases tl with
    | svoVar => exact gavelTyp_present (gavelTyp_present (gavelTyp_ensures h1) h2) h3
    | svoEntity => exact gavelTyp_present (gavelTyp_ensures h2) h3
    | wmIndicator => exact gavelTyp_ensures h3

theorem gavelWrite_ne {m term : String} {tl' : TypL} {g g₂ : Graph}
    {kv : PK × ℚ} (hm : m ≠ term)
    (h : gavelWrite term tl' g kv = .ok g₂) :
    alookup g₂ m = alookup g m := by
  unfold gavelWrite at h
  split at h
  · rcases (bind_ok_iff _ _ _).1 h with ⟨node, _hn, h⟩
    rcases (bind_ok_iff _ _ _).1 h with ⟨score, _hsc, h⟩
    split at h
    next old heq =>
      cases h
      exact alookup_aset_ne _ _ _ _ hm
    next heq =>
      cases h
      exact alookup_aset_ne _ _ _ _ hm
  · cases h
    rfl

theorem gavelEnsure_ne {m term : String} {tl' : TypL} {g : Graph} {node : Node}
    (hm : m ≠ term) :
    alookup (gavelEnsure term tl' g node) m = alookup g m := by
  unfold gavelEnsure
  split
  · exact alookup_aset_ne _ _ _ _ hm
  · rfl

theorem gavelTyp_ne {m : String} {im : IMap} {factor : ℚ} {num : Nat}
    {lts : List String} {term : String} {g g₂ : Graph} {tl' : TypL}
    (hm : m ≠ term)
    (h : gavelTyp im factor num lts term g tl' = .ok g₂) :
    alookup g₂ m = alookup g m := by
  unfold gavelTyp at h
  rcases (bind_ok_iff _ _ _).1 h with ⟨node, _hn, h⟩
  dsimp only at h
  rcases (bind_ok_iff _ _ _).1 h with ⟨nv, _hacc, h⟩
  exact foldlM_inv (P := fun b => alookup b m = alookup g m)
    (fun b a b' hb hs => (gavelWrite_ne hm hs).trans hb) nv _ _
    (gavelEnsure_ne hm) h

theorem gavelTerm_ne {m : String} {im : IMap} {factor : ℚ} {link : Link5}
    {g g₂ : Graph} {term : String} (hm : m ≠ term)
    (h : gavelTerm im factor link g term = .ok g₂) :
    alookup g₂ m = alookup g m := by
  unfold gavelTerm at h
  rcases (bind_ok_iff _ _ _).1 h with ⟨node, _hn, h⟩
  split at h
  · cases h
    rfl
  · exact foldlM_inv (P := fun b => alookup b m = alookup g m)
      (fun b a b' hb hs => (gavelTyp_ne hm hs).trans hb) _ _ _ rfl h

theorem gavelTerm_keep {m : String} {node : Node} {im : IMap} {factor : ℚ}
    {link : Link5} {g g₂ : Graph} {term : String}
    (hnl : ∀ l, node.getLink l = none)
    (hb : alookup g m = some node)
    (h : gavelTerm im factor link g term = .ok g₂) :
    alookup g₂ m = some node := by
  by_cases hm : m = term
  · subst hm
    unfold gavelTerm at h
    rcases (bind_ok_iff _ _ _).1 h with ⟨node', hn', h⟩
    have hnn : node' = node := Option.some.inj ((pyGet_ok hn').symm.trans hb)
    subst hnn
    split at h
    next heq =>
      cases h
      exact hb
    next lts heq =>
      rw [hnl link] at heq
      cases heq
  · rw [gavelTerm_ne hm h]
    exact hb

theorem gavelPass_keep {im : IMap} {g g' : Graph} {n : String} {node : Node}
    (h : graphAddVarEntityLinks im g = .ok g')
    (hn : alookup g n = some node)
    (hnl : ∀ l, node.getLink l = none) :
    alookup g' n = some node := by
  unfold graphAddVarEntityLinks at h
  refine foldlM_inv (P := fun b => alookup b n = some node) ?_ allLinks5 g g' hn h
  intro b link b' hb hstep
  dsimp only at hstep
  exact foldlM_inv (fun b2 t2 b2' hb2 hs2 => gavelTerm_keep hnl hb2 hs2)
    _ _ _ hb hstep

theorem gavelPass_present {im : IMap} {g g' : Graph} {n : String} {node : Node}
    {l : Link5} (h : graphAddVarEntityLinks im g = .ok g')
    (hn : alookup g n = some node) (hl : (node.getLink l).isSome) :
    ∀ tl, scorePresent n tl g' := by
  unfold graphAddVarEntityLinks at h
  rcases List.append_of_mem (mem_allLinks5 l) with ⟨L1, L2, hLL⟩
  rw [hLL, List.foldlM_append] at h
  rcases (bind_ok_iff _ _ _).1 h with ⟨ga, hA, h⟩
  rw [List.foldlM_cons] at h
  rcases (bind_ok_iff _ _ _).1 h with ⟨gb, hB, h⟩
  have hlpa : linkPresent n l ga := by
    refine foldlM_inv ?_ L1 g ga ⟨node, hn, hl⟩ hA
    intro b lk b' hb hstep
    dsimp only at hstep
    exact foldlM_inv (fun b2 t2 b2' hb2 hs2 => gavelTerm_link hb2 hs2)
      _ _ _ hb hstep
  dsimp only at hB
  rcases List.append_of_mem (alookup_mem_keys g n node hn) with ⟨T1, T2, hTT⟩
  rw [hTT, List.foldlM_append] at hB
  rcases (bind_ok_iff _ _ _).1 hB with ⟨ga1, hB1, hB⟩
  rw [List.foldlM_cons] at hB
  rcases (bind_ok_iff _ _ _).1 hB with ⟨ga2, hB2, hB⟩
  have hlpa1 : linkPresent n l ga1 :=
    foldlM_inv (fun b2 t2 b2' hb2 hs2 => gavelTerm_link hb2 hs2) T1 ga ga1
      hlpa hB1
  rcases hlpa1 with ⟨nd1, hnd1, hs1⟩
  have hens := gavelTerm_ensures hnd1 hs1 hB2
  intro tl
  have hp2 : scorePresent n tl gb :=
    foldlM_inv (fun b2 t2 b2' hb2 hs2 => gavelTerm_present hb2 hs2) T2 ga2 gb
      (hens tl) hB
  refine foldlM_inv ?_ L2 gb g' hp2 h
  intro b lk b' hb hstep
  dsimp only at hstep
  exact foldlM_inv (fun b2 t2 b2' hb2 hs2 => gavelTerm_present hb2 hs2)
    _ _ _ hb hstep

/-- C10.  Frame effect of the score-propagation pass: (i) every node that
has at least one outgoing first- or second-order structural edge ends the
pass carrying all three score fields (`hasSVOVar`, `hasSVOEntity`,
`hasWMIndicator`) — each inserted at least as an empty map even when no
contribution exceeds the write threshold; (ii) a node with none of the
five structural edges comes out of the pass exactly unchanged. -/
theorem C10_frame (im : IMap) (g g' : Graph)
    (h : graphAddVarEntityLinks im g = .ok g') :
    (∀ n node, alookup g n = some node →
      (∃ l, l ∈ allLinks5 ∧ (node.getLink l).isSome) →
      ∀ tl, scorePresent n tl g') ∧
    (∀ n node, alookup g n = some node →
      (∀ l, l ∈ allLinks5 → node.getLink l = none) →
      alookup g' n = some node) := by
  constructor
  · rintro n node hn ⟨l, _hm, hl⟩ tl
    exact gavelPass_present h hn hl tl
  · intro n node hn hnl
    exact gavelPass_keep h hn (fun l => hnl l (mem_allLinks5 l))

/-- C10 witness: on the concrete graph `c7a` (a parent with one component
edge, a child with no structural edges) the pass returns `c10res`: the
parent has gained the previously-missing `hasSVOEntity` field and the
edge-free child `c` still maps to exactly `childN`. -/
theorem C10_witness :
    scorePresent "p" TypL.svoEntity c10res ∧ alookup c10res "c" = some childN := by
  have hf := C10_frame c7im c7a c10res (by with_unfolding_all rfl)
  constructor
  · exact hf.1 "p" { type := "compound", hasComponents := some ["c"] }
      (by with_unfolding_all rfl)
      ⟨Link5.hasComponents, by decide, by rfl⟩ TypL.svoEntity
  · exact hf.2 "c" childN (by with_unfolding_all rfl)
      (fun l _ => by cases l <;> rfl)

end SciVar
